import Mathlib

/-!
# Lock subcommands of the agent CLI and the machine-scoped lock registry

Part one embeds the four lock actions of `clicommand` (`lock_acquire.go`,
`lock_do.go`, `lock_release.go`, `lock_get.go`).  An action is a computation
over a `World` that records every call made to the `lock` package and
everything written to the application writers; it either returns `nil` or
halts the process (`os.Exit` or the logger's `Fatal`).

The `lock` package itself is outside the visible source, so the client is a
parameter of every action: an arbitrary `Env` answers `lock.NewClient` and the
client operations.

Part two is the leader side of the lock service, modelled from the design
document: the registry with its five operations, processed one at a time, and
the leader with the callers parked on a do-once barrier.

Part three embeds job verification (`agent/verify_job.go`), the meta-data
commands, artifact search and `env get` of `clicommand`, and the directory
names of `internal/job`, each over the parts of the packages `pipeline`, `api`,
`agent`, `jobapi` and `env` that it calls.
-/

namespace Agent

/-! ## Go library boundary: contexts, writers, process exit -/

/-- A `context.Context`, reduced to what the lock actions use: whether it
carries a timeout (in nanoseconds, as `time.Duration`) or none. -/
structure Context where
  timeout : Option Int
  deriving DecidableEq, Repr

/-- Go's `context.Background()`: never cancelled, no deadline. -/
def Context.Background : Context := { timeout := none }

/-- Go's `context.WithTimeout(parent, d)`: the child expires after `d`, or
when the parent does if that is sooner. -/
def Context.WithTimeout (parent : Context) (d : Int) : Context :=
  match parent.timeout with
  | none => { timeout := some d }
  | some p => { timeout := some (min p d) }

/-- One call into the `lock` package, with its arguments. -/
inductive Call where
  | NewClient (ctx : Context) (socketsPath : String)
  | Lock (ctx : Context) (key : String)
  | DoOnceStart (ctx : Context) (key : String)
  | Get (ctx : Context) (key : String)
  | Unlock (ctx : Context) (key : String) (token : String)
  deriving DecidableEq, Repr

/-- The context a call was made with. -/
def Call.ctx : Call → Context
  | .NewClient ctx _ => ctx
  | .Lock ctx _ => ctx
  | .DoOnceStart ctx _ => ctx
  | .Get ctx _ => ctx
  | .Unlock ctx _ _ => ctx

/-- What an action has done so far: the calls into the `lock` package in
order, the bytes written to `c.App.Writer` and to `c.App.ErrWriter`. -/
structure World where
  calls : List Call
  out : String
  err : String
  deriving DecidableEq, Repr

/-- The state every action starts from. -/
def World.init : World := { calls := [], out := "", err := "" }

/-- The ways an action stops the process instead of returning. -/
inductive Halt where
  | exit (code : Int)
  | fatal (format : String) (args : List String)
  deriving DecidableEq, Repr

/-- An action body: it may halt, and the world persists across a halt. -/
abbrev Action := ExceptT Halt (StateM World)

/-- Run an action from the initial world. -/
def Action.exec {α : Type} (a : Action α) : Except Halt α × World :=
  (ExceptT.run a).run World.init

/-- The client returned by `lock.NewClient`: one answer per operation. A Go
`error` is represented by its message. -/
structure Client where
  Lock : Context → String → Except String String
  DoOnceStart : Context → String → Except String Bool
  Get : Context → String → Except String String
  Unlock : Context → String → String → Except String Unit

/-- Everything the actions take from outside `clicommand`: the `lock`
package's constructor and the constant `lockClientErrMessage`. -/
structure Env where
  NewClient : Context → String → Except String Client
  lockClientErrMessage : String

/-- Record a call in the world. -/
def record (c : Call) : Action Unit :=
  modify fun w => { w with calls := w.calls ++ [c] }

/-- The call `fmt.Fprint(c.App.ErrWriter, s)`. -/
def fprintErr (s : String) : Action Unit :=
  modify fun w => { w with err := w.err ++ s }

/-- The call `fmt.Fprintln(c.App.Writer, s)`: the operand followed by a newline. -/
def fprintlnOut (s : String) : Action Unit :=
  modify fun w => { w with out := w.out ++ s ++ "\n" }

/-- The call `os.Exit(code)`. -/
def osExit {α : Type} (code : Int) : Action α :=
  throw (Halt.exit code)

/-- Modelled from the spec: the logger's `Fatal` is not in the visible source;
the CLI surface describes it as fatal with a nonzero status. It logs the
formatted message and stops the process. -/
def Fatal {α : Type} (format : String) (args : List String) : Action α :=
  throw (Halt.fatal format args)

/-- Modelled from the spec: the exit status of a finished action, `0` for a
`nil` return, the given code for `os.Exit`, and the logger's nonzero status
for `Fatal`. -/
def exitStatus {α : Type} : Except Halt α → Int
  | .ok _ => 0
  | .error (.exit code) => code
  | .error (.fatal _ _) => 1

/-- The call `lock.NewClient(ctx, socketsPath)`, recorded. -/
def newClient (env : Env) (ctx : Context) (socketsPath : String) :
    Action (Except String Client) := do
  record (.NewClient ctx socketsPath)
  pure (env.NewClient ctx socketsPath)

/-- The call `client.Lock(ctx, key)`, recorded. -/
def clientLock (client : Client) (ctx : Context) (key : String) :
    Action (Except String String) := do
  record (.Lock ctx key)
  pure (client.Lock ctx key)

/-- The call `client.DoOnceStart(ctx, key)`, recorded. -/
def clientDoOnceStart (client : Client) (ctx : Context) (key : String) :
    Action (Except String Bool) := do
  record (.DoOnceStart ctx key)
  pure (client.DoOnceStart ctx key)

/-- The call `client.Get(ctx, key)`, recorded. -/
def clientGet (client : Client) (ctx : Context) (key : String) :
    Action (Except String String) := do
  record (.Get ctx key)
  pure (client.Get ctx key)

/-- The call `client.Unlock(ctx, key, token)`, recorded. -/
def clientUnlock (client : Client) (ctx : Context) (key token : String) :
    Action (Except String Unit) := do
  record (.Unlock ctx key token)
  pure (client.Unlock ctx key token)

/-! ## Help texts -/

/-- The constant `lockAcquireHelpDescription`. -/
def lockAcquireHelpDescription : String :=
  String.join [
    "Usage:\n",
    "\n",
    "   buildkite-agent lock acquire [key]\n",
    "\n",
    "Description:\n",
    "   Acquires the lock for the given key. ′lock acquire′ will wait (potentially\n",
    "   forever) until it can acquire the lock, if the lock is already held by\n",
    "   another process. If multiple processes are waiting for the same lock, there\n",
    "   is no ordering guarantee of which one will be given the lock next.\n",
    "\n",
    "   To prevent separate processes unlocking each other, the output from ′lock\n",
    "   acquire′ should be stored, and passed to ′lock release′.\n",
    "\n",
    "   Note that this subcommand is only available when an agent has been started\n",
    "   with the ′agent-api′ experiment enabled.\n",
    "\n",
    "Examples:\n",
    "\n",
    "   $ token=$(buildkite-agent lock acquire llama)\n",
    "   $ critical_section()\n",
    "   $ buildkite-agent lock release llama \"$\x7btoken\x7d\"\n",
    "\n"]

/-- The constant `lockDoHelpDescription`. -/
def lockDoHelpDescription : String :=
  String.join [
    "Usage:\n",
    "\n",
    "   buildkite-agent lock do [key]\n",
    "\n",
    "Description:\n",
    "   Begins a do-once lock. Do-once can be used by multiple processes to\n",
    "   wait for completion of some shared work, where only one process should do\n",
    "   the work.\n",
    "\n",
    "   Note that this subcommand is only available when an agent has been started\n",
    "   with the ′agent-api′ experiment enabled.\n",
    "\n",
    "   ′lock do′ will do one of two things:\n",
    "\n",
    "   - Print 'do'. The calling process should proceed to do the work and then\n",
    "     call ′lock done′.\n",
    "   - Wait until the work is marked as done (with ′lock done′) and print 'done'.\n",
    "\n",
    "   If ′lock do′ prints 'done' immediately, the work was already done.\n",
    "\n",
    "Examples:\n",
    "\n",
    "   #!/bin/bash\n",
    "   if [ $(buildkite-agent lock do llama) = 'do' ] ; then\n",
    "      setup_code()\n",
    "      buildkite-agent lock done llama\n",
    "   fi\n",
    "\n"]

/-- The constant `lockReleaseHelpDescription`. -/
def lockReleaseHelpDescription : String :=
  String.join [
    "Usage:\n",
    "\n",
    "   buildkite-agent lock release [key] [token]\n",
    "\n",
    "Description:\n",
    "   Releases the lock for the given key. This should only be called by the\n",
    "   process that acquired the lock. To help prevent different processes unlocking\n",
    "   each other unintentionally, the output from ′lock acquire′ is required as the\n",
    "   second argument.\n",
    "\n",
    "   Note that this subcommand is only available when an agent has been started\n",
    "   with the ′agent-api′ experiment enabled.\n",
    "\n",
    "Examples:\n",
    "\n",
    "   $ token=$(buildkite-agent lock acquire llama)\n",
    "   $ critical_section()\n",
    "   $ buildkite-agent lock release llama \"$\x7btoken\x7d\"\n",
    "\n"]

/-- The constant `lockGetHelpDescription`. -/
def lockGetHelpDescription : String :=
  String.join [
    "Usage:\n",
    "\n",
    "   buildkite-agent lock get [key]\n",
    "\n",
    "Description:\n",
    "   Retrieves the value of a lock key. Any key not in use returns an empty\n",
    "   string.\n",
    "\n",
    "   Note that this subcommand is only available when an agent has been started\n",
    "   with the ′agent-api′ experiment enabled.\n",
    "\n",
    "   ′lock get′ is generally only useful for inspecting lock state, as the value\n",
    "   can change concurrently. To acquire or release a lock, use ′lock acquire′ and\n",
    "   ′lock release′.\n",
    "\n",
    "Examples:\n",
    "\n",
    "   $ buildkite-agent lock get llama\n",
    "   Kuzco\n",
    "\n"]

/-! ## Configuration structs -/

/-- The struct `LockAcquireConfig`; `LockWaitTimeout` is a `time.Duration`. -/
structure LockAcquireConfig where
  LockScope : String
  SocketsPath : String
  LockWaitTimeout : Int
  Debug : Bool
  LogLevel : String
  NoColor : Bool
  Experiments : List String
  Profile : String
  deriving DecidableEq, Repr

/-- The struct `LockDoConfig`. -/
structure LockDoConfig where
  LockScope : String
  SocketsPath : String
  LockWaitTimeout : Int
  Debug : Bool
  LogLevel : String
  NoColor : Bool
  Experiments : List String
  Profile : String
  deriving DecidableEq, Repr

/-- The struct `LockReleaseConfig`. -/
structure LockReleaseConfig where
  LockScope : String
  SocketsPath : String
  Debug : Bool
  LogLevel : String
  NoColor : Bool
  Experiments : List String
  Profile : String
  deriving DecidableEq, Repr

/-- The struct `LockGetConfig`. -/
structure LockGetConfig where
  LockScope : String
  SocketsPath : String
  Debug : Bool
  LogLevel : String
  NoColor : Bool
  Experiments : List String
  Profile : String
  deriving DecidableEq, Repr

/-! ## The four actions

`cfg` is the configuration `setupLoggerAndConfig` loaded and `args` is
`c.Args()`. The deferred `done()` and `canc()` only release resources and are
left out. -/

/-- The function `lockAcquireAction` of `lock_acquire.go`. -/
def lockAcquireAction (env : Env) (cfg : LockAcquireConfig) (args : List String) :
    Action Unit := do
  if args.length ≠ 1 then
    fprintErr lockAcquireHelpDescription
    osExit 1
  let key := args.getD 0 ""
  let mut ctx := Context.Background
  if cfg.LockScope ≠ "machine" then
    Fatal "Only 'machine' scope for locks is supported in this version." []
  if cfg.LockWaitTimeout ≠ 0 then
    ctx := Context.WithTimeout ctx cfg.LockWaitTimeout
  match ← newClient env ctx cfg.SocketsPath with
  | .error e => Fatal env.lockClientErrMessage [e]
  | .ok client =>
    match ← clientLock client ctx key with
    | .error e => Fatal "Could not acquire lock: %v\n" [e]
    | .ok token =>
      fprintlnOut token
      return ()

/-- The function `lockDoAction` of `lock_do.go`. -/
def lockDoAction (env : Env) (cfg : LockDoConfig) (args : List String) :
    Action Unit := do
  if args.length ≠ 1 then
    fprintErr lockDoHelpDescription
    osExit 1
  let key := args.getD 0 ""
  let mut ctx := Context.Background
  if cfg.LockScope ≠ "machine" then
    Fatal "Only 'machine' scope for locks is supported in this version." []
  if cfg.LockWaitTimeout ≠ 0 then
    ctx := Context.WithTimeout ctx cfg.LockWaitTimeout
  match ← newClient env ctx cfg.SocketsPath with
  | .error e => Fatal env.lockClientErrMessage [e]
  | .ok client =>
    match ← clientDoOnceStart client ctx key with
    | .error e => Fatal "Couldn't start do-once lock: %v\n" [e]
    | .ok doIt =>
      if doIt then
        fprintlnOut "do"
        return ()
      fprintlnOut "done"
      return ()

/-- The function `lockReleaseAction` of `lock_release.go`. -/
def lockReleaseAction (env : Env) (cfg : LockReleaseConfig) (args : List String) :
    Action Unit := do
  if args.length ≠ 2 then
    fprintErr lockReleaseHelpDescription
    osExit 1
  let key := args.getD 0 ""
  let token := args.getD 1 ""
  let ctx := Context.Background
  if cfg.LockScope ≠ "machine" then
    Fatal "Only 'machine' scope for locks is supported in this version." []
  match ← newClient env ctx cfg.SocketsPath with
  | .error e => Fatal env.lockClientErrMessage [e]
  | .ok client =>
    match ← clientUnlock client ctx key token with
    | .error e => Fatal "Could not release lock: %v" [e]
    | .ok _ => return ()

/-- The function `lockGetAction` of `lock_get.go`. -/
def lockGetAction (env : Env) (cfg : LockGetConfig) (args : List String) :
    Action Unit := do
  if args.length ≠ 1 then
    fprintErr lockGetHelpDescription
    osExit 1
  let key := args.getD 0 ""
  let ctx := Context.Background
  if cfg.LockScope ≠ "machine" then
    Fatal "Only 'machine' scope for locks is supported in this version." []
  match ← newClient env ctx cfg.SocketsPath with
  | .error e => Fatal env.lockClientErrMessage [e]
  | .ok client =>
    match ← clientGet client ctx key with
    | .error e => Fatal "Couldn't get lock state: %v" [e]
    | .ok v =>
      fprintlnOut v
      return ()

/-- The message every lock action dies with on an unsupported scope. -/
def scopeFatal : Halt :=
  .fatal "Only 'machine' scope for locks is supported in this version." []

/-! ## Vocabulary for the statements about the actions -/

/-- The context the acquire and do actions end up with for a wait timeout
`d`: `context.Background()` when `d` is zero, otherwise a timeout of `d`. -/
def waitContext (d : Int) : Context :=
  { timeout := if d = 0 then none else some d }

/-- The run died on the scope check: the scope `Fatal`, no call into the
`lock` package, nothing written. -/
def StoppedAtScope (r : Except Halt Unit × World) : Prop :=
  r.1 = .error scopeFatal ∧ r.2.calls = [] ∧ r.2.out = ""

/-- The run got past the scope check and created the client: it did not die
with the scope `Fatal`, and its first call is `lock.NewClient` on the
configured sockets path. -/
def ClientCreated (r : Except Halt Unit × World) (socketsPath : String) : Prop :=
  r.1 ≠ .error scopeFatal ∧ ∃ ctx, r.2.calls.head? = some (.NewClient ctx socketsPath)

/-- A client for the worked examples: `Lock` hands out `"abc123"`, the
do-once work of `"llama"` is still to do and any other is done, `Get` reports
nothing held, and `Unlock` accepts only `"abc123"`. -/
def exampleClient : Client :=
  { Lock := fun _ _ => .ok "abc123"
    DoOnceStart := fun _ key => .ok (key == "llama")
    Get := fun _ _ => .ok ""
    Unlock := fun _ _ token =>
      if token = "abc123" then .ok () else .error "token mismatch" }

/-- An environment whose leader is reachable and answers with `exampleClient`. -/
def exampleEnv : Env :=
  { NewClient := fun _ _ => .ok exampleClient
    lockClientErrMessage := "Could not connect to Agent API: %v" }

/-- An acquire configuration with the given scope and wait timeout. -/
def exampleAcquireConfig (scope : String) (wait : Int) : LockAcquireConfig :=
  { LockScope := scope, SocketsPath := "/tmp/sockets", LockWaitTimeout := wait,
    Debug := false, LogLevel := "notice", NoColor := false, Experiments := [], Profile := "" }

/-- A do configuration with the given scope and wait timeout. -/
def exampleDoConfig (scope : String) (wait : Int) : LockDoConfig :=
  { LockScope := scope, SocketsPath := "/tmp/sockets", LockWaitTimeout := wait,
    Debug := false, LogLevel := "notice", NoColor := false, Experiments := [], Profile := "" }

/-- A release configuration with the given scope. -/
def exampleReleaseConfig (scope : String) : LockReleaseConfig :=
  { LockScope := scope, SocketsPath := "/tmp/sockets",
    Debug := false, LogLevel := "notice", NoColor := false, Experiments := [], Profile := "" }

/-- A get configuration with the given scope. -/
def exampleGetConfig (scope : String) : LockGetConfig :=
  { LockScope := scope, SocketsPath := "/tmp/sockets",
    Debug := false, LogLevel := "notice", NoColor := false, Experiments := [], Profile := "" }

/-! ## The leader's registry

The leader side of the lock service (registry, serializer, waiter
notification) is outside the visible source. It is modelled here from the
design document: sections 3 (data model), 4.1 (operations), 4.2 (waiters) and
7 (an invalid request leaves the registry unchanged). The serializer makes
every operation atomic, so an interleaving of concurrent callers is a sequence
of operations; a caller that must suspend is answered `none` and tries again
after it is woken. -/

/-- Modelled from the spec: `LockEntry` of the data model, the lock state of
one key. The leader's registry code is not in the visible source. -/
structure LockEntry where
  held : Bool
  token : String
  deriving DecidableEq, Repr

/-- Modelled from the spec: the `state` of a `BarrierEntry`. -/
inductive BarrierState where
  | NotStarted
  | InProgress
  | Done
  deriving DecidableEq, Repr

/-- The position of a barrier state along `NotStarted → InProgress → Done`. -/
def BarrierState.rank : BarrierState → Nat
  | .NotStarted => 0
  | .InProgress => 1
  | .Done => 2

/-- Modelled from the spec: a write to the registry map, which keeps one entry
per key. The entry of `key` is replaced if there is one, otherwise one is
added at the end. -/
def upsert {β : Type} (key : String) (v : β) : List (String × β) → List (String × β)
  | [] => [(key, v)]
  | (k, w) :: rest => if k = key then (key, v) :: rest else (k, w) :: upsert key v rest

/-- Modelled from the spec: the Lock Registry, the in-memory map of keys to
lock and barrier state, whose code is not in the visible source. Entries are
created on first write and never deleted. -/
structure Registry where
  locks : List (String × LockEntry)
  barriers : List (String × BarrierState)
  deriving DecidableEq, Repr

/-- Modelled from the spec: the registry of a leader that has just started,
where no key was ever touched. -/
def Registry.empty : Registry := { locks := [], barriers := [] }

/-- Modelled from the spec: the lock entry of `key`; a key never touched is
not held and has the empty token. -/
def Registry.lockEntry (r : Registry) (key : String) : LockEntry :=
  (r.locks.lookup key).getD { held := false, token := "" }

/-- Modelled from the spec: the barrier state of `key`; an absent entry counts
as `NotStarted`. -/
def Registry.barrier (r : Registry) (key : String) : BarrierState :=
  (r.barriers.lookup key).getD .NotStarted

/-- Modelled from the spec: store a lock entry for `key`. -/
def Registry.setLock (r : Registry) (key : String) (e : LockEntry) : Registry :=
  { r with locks := upsert key e r.locks }

/-- Modelled from the spec: store a barrier state for `key`. -/
def Registry.setBarrier (r : Registry) (key : String) (s : BarrierState) : Registry :=
  { r with barriers := upsert key s r.barriers }

/-- Modelled from the spec: `Acquire(key)`. If the key is not held it becomes
held with the newly minted token `fresh`, which is returned; if it is held the
caller suspends (`none`) and the registry is untouched. -/
def Registry.Acquire (r : Registry) (key fresh : String) : Option String × Registry :=
  if (r.lockEntry key).held = false then
    (some fresh, r.setLock key { held := true, token := fresh })
  else
    (none, r)

/-- Modelled from the spec: `Release(key, token)`. It succeeds only if the
key is held and the supplied token equals the stored one, and then clears
both; otherwise it fails without mutating state. -/
def Registry.Release (r : Registry) (key token : String) : Bool × Registry :=
  if (r.lockEntry key).held = true ∧ token = (r.lockEntry key).token then
    (true, r.setLock key { held := false, token := "" })
  else
    (false, r)

/-- Modelled from the spec: `Get(key)`, a pure read of the current token. -/
def Registry.Get (r : Registry) (key : String) : String :=
  (r.lockEntry key).token

/-- Modelled from the spec: `DoOnceStart(key)`. `NotStarted` (or absent) moves
to `InProgress` and answers "do"; `InProgress` suspends the caller (`none`);
`Done` answers "done" at once. -/
def Registry.DoOnceStart (r : Registry) (key : String) : Option String × Registry :=
  match r.barrier key with
  | .NotStarted => (some "do", r.setBarrier key .InProgress)
  | .InProgress => (none, r)
  | .Done => (some "done", r)

/-- Modelled from the spec: `DoOnceFinish(key)`. `InProgress` moves to `Done`;
on any other state the call is a caller error, answered with a failure that
leaves the registry unchanged. -/
def Registry.DoOnceFinish (r : Registry) (key : String) : Bool × Registry :=
  match r.barrier key with
  | .InProgress => (true, r.setBarrier key .Done)
  | _ => (false, r)

/-- Modelled from the spec: one request to the registry. An `Acquire` carries
the random token the registry would mint for it. -/
inductive Op where
  | Acquire (key fresh : String)
  | Release (key token : String)
  | Get (key : String)
  | DoOnceStart (key : String)
  | DoOnceFinish (key : String)
  deriving DecidableEq, Repr

/-- Modelled from the spec: the answer to one request. -/
inductive Answer where
  | granted (token : String)
  | suspended
  | released (ok : Bool)
  | value (v : String)
  | started (word : String)
  | finished (ok : Bool)
  deriving DecidableEq, Repr

/-- Modelled from the spec: the Serializer, which processes one request at a
time, each atomically. -/
def Registry.step (r : Registry) : Op → Answer × Registry
  | .Acquire key fresh =>
    match r.Acquire key fresh with
    | (some t, r') => (.granted t, r')
    | (none, r') => (.suspended, r')
  | .Release key token => (.released (r.Release key token).1, (r.Release key token).2)
  | .Get key => (.value (r.Get key), r)
  | .DoOnceStart key =>
    match r.DoOnceStart key with
    | (some w, r') => (.started w, r')
    | (none, r') => (.suspended, r')
  | .DoOnceFinish key => (.finished (r.DoOnceFinish key).1, (r.DoOnceFinish key).2)

/-- Modelled from the spec: the registry after a sequence of requests. -/
def Registry.run (r : Registry) : List Op → Registry
  | [] => r
  | op :: ops => (r.step op).2.run ops

/-- The requests of a sequence paired with their answers, in order. -/
def Registry.trace (r : Registry) : List Op → List (Op × Answer)
  | [] => []
  | op :: ops => (op, (r.step op).1) :: (r.step op).2.trace ops

/-- True for a successful `Acquire` of `key`. -/
def isGrant (key : String) : Op × Answer → Bool
  | (.Acquire k _, .granted _) => k == key
  | _ => false

/-- True for a successful `Release` of `key`. -/
def isRelease (key : String) : Op × Answer → Bool
  | (.Release k _, .released true) => k == key
  | _ => false

/-! ### Callers parked on a do-once barrier -/

/-- Modelled from the spec: what a client process does to a barrier, a call
of `DoOnceStart` or of `DoOnceFinish`. -/
inductive Event where
  | start (caller : Nat) (key : String)
  | finish (caller : Nat) (key : String)
  deriving DecidableEq, Repr

/-- Modelled from the spec: what the leader has sent back, in order: the word
a `DoOnceStart` call returned to its caller, or the outcome of a
`DoOnceFinish` call. -/
inductive Output where
  | reply (caller : Nat) (key : String) (word : String)
  | finish (caller : Nat) (key : String) (ok : Bool)
  deriving DecidableEq, Repr

/-- Modelled from the spec: the leader with its waiters, whose code is not in
the visible source. `parked` are the callers suspended in `DoOnceStart` with
the key each waits on. -/
structure Leader where
  reg : Registry
  parked : List (Nat × String)
  log : List Output
  deriving DecidableEq, Repr

/-- Modelled from the spec: the leader at start. -/
def Leader.init : Leader := { reg := Registry.empty, parked := [], log := [] }

/-- Modelled from the spec: one evaluation of `DoOnceStart(key)` on behalf of
`caller`: an answer is sent back, a suspension parks the caller. -/
def Leader.call (l : Leader) (caller : Nat) (key : String) : Leader :=
  match l.reg.DoOnceStart key with
  | (some w, reg) => { l with reg := reg, log := l.log ++ [.reply caller key w] }
  | (none, reg) => { l with reg := reg, parked := l.parked ++ [(caller, key)] }

/-- Modelled from the spec: one event at the leader. A successful
`DoOnceFinish` wakes every waiter parked on the key, and each woken waiter
evaluates its guard again. -/
def Leader.step (l : Leader) : Event → Leader
  | .start caller key => l.call caller key
  | .finish caller key =>
    match l.reg.DoOnceFinish key with
    | (true, reg) =>
      (l.parked.filter fun w => w.2 = key).foldl (fun l w => l.call w.1 w.2)
        { reg := reg
          parked := l.parked.filter fun w => w.2 ≠ key
          log := l.log ++ [.finish caller key true] }
    | (false, reg) => { l with reg := reg, log := l.log ++ [.finish caller key false] }

/-- Modelled from the spec: the leader after a sequence of events. -/
def Leader.run (l : Leader) : List Event → Leader
  | [] => l
  | e :: es => (l.step e).run es

/-- The number of `DoOnceStart(key)` calls in a sequence of events. -/
def startCalls (key : String) (evs : List Event) : Nat :=
  evs.countP fun e => match e with
    | .start _ k => k == key
    | .finish _ _ => false

/-- The number of times `word` was returned to a `DoOnceStart(key)` call. -/
def replies (key word : String) (log : List Output) : Nat :=
  log.countP fun o => match o with
    | .reply _ k w => k == key && w == word
    | .finish _ _ _ => false

/-- The number of callers parked on `key`. -/
def parkedOn (key : String) (parked : List (Nat × String)) : Nat :=
  parked.countP fun w => w.2 == key

/-! ### Vocabulary for the statements about the registry -/

/-- The data-model invariant of `LockEntry`: a key that is not held has the
empty token. -/
def Registry.TokensCleared (r : Registry) : Prop :=
  ∀ key, (r.lockEntry key).held = false → (r.lockEntry key).token = ""

/-- Number of holders of `key`: one if it is held, none otherwise. -/
def Registry.holders (r : Registry) (key : String) : Nat :=
  if (r.lockEntry key).held then 1 else 0

/-- Some caller's `DoOnceFinish(key)` has succeeded in this log. -/
def FinishLogged (key : String) (log : List Output) : Prop :=
  ∃ c, Output.finish c key true ∈ log

/-- Every "done" returned for `key` comes after a successful
`DoOnceFinish(key)` in the log. -/
def DoneAfterFinish (key : String) (log : List Output) : Prop :=
  ∀ pre post c, log = pre ++ Output.reply c key "done" :: post → FinishLogged key pre

/-- The bookkeeping of one barrier after `n` calls of `DoOnceStart(key)`:
what the log and the waiters look like in each barrier state. -/
def Leader.Inv (key : String) (n : Nat) (l : Leader) : Prop :=
  DoneAfterFinish key l.log ∧
  (l.reg.barrier key = .NotStarted →
    n = 0 ∧ replies key "do" l.log = 0 ∧ replies key "done" l.log = 0 ∧
      parkedOn key l.parked = 0) ∧
  (l.reg.barrier key = .InProgress →
    replies key "do" l.log = 1 ∧ replies key "done" l.log = 0 ∧
      parkedOn key l.parked + 1 = n) ∧
  (l.reg.barrier key = .Done →
    replies key "do" l.log = 1 ∧ replies key "done" l.log + 1 = n ∧
      parkedOn key l.parked = 0 ∧ FinishLogged key l.log)

/-- A successful `DoOnceFinish(key)` in the log means the barrier of `key` is
`Done`. -/
def Leader.FinishMeansDone (key : String) (l : Leader) : Prop :=
  FinishLogged key l.log → l.reg.barrier key = .Done

/-! ## Job verification (`agent/verify_job.go`)

The types and methods of `internal/pipeline` and `api` that `verifyJob` uses
are outside the visible source. The step and the job carry the fields that
`verifyJob` reads, and the three methods it calls (`Signature.Verify`,
`Job.ValuesForFields`, `CommandStep.ValuesForFields`) are parameters. -/

/-- A Go `map[string]string`, as a list of entries read first match first. -/
abbrev GoMap := List (String × String)

/-- The index expression `m[key]`: the value, or the empty string when the key
is absent. -/
def GoMap.get (m : GoMap) (key : String) : String :=
  (m.lookup key).getD ""

/-- An operand of a format verb: a string, or a slice of strings. -/
inductive Operand where
  | str (s : String)
  | strs (l : List String)
  deriving DecidableEq, Repr

/-- A Go `error` value as `verifyJob` can return it, kept as the call that
built it rather than as rendered text. -/
inductive GoError where
  | new (text : String)
  | errorf (format : String) (args : List Operand)
  | wrapf (format : String) (args : List Operand) (wrapped : GoError)
  | invalidSignatureError (underlying : GoError)
  deriving DecidableEq, Repr

/-- The variable `ErrNoSignature`. -/
def ErrNoSignature : GoError := .new "job had no signature to verify"

/-- The function `newInvalidSignatureError`. -/
def newInvalidSignatureError (err : GoError) : GoError :=
  .invalidSignatureError err

/-- True exactly for an `*invalidSignatureError`. -/
def GoError.isInvalidSignature : GoError → Bool
  | .invalidSignatureError _ => true
  | _ => false

/-- The part of `pipeline.Signature` that `verifyJob` reads. -/
structure Signature where
  Value : String
  SignedFields : List String
  deriving DecidableEq, Repr

/-- A `pipeline.Matrix`; `verifyJob` only tests the pointer for nil. -/
structure Matrix where
  Setup : List String
  deriving DecidableEq, Repr

/-- The part of `pipeline.CommandStep` that `verifyJob` reads, with the
command that a signature covers; `none` is a nil pointer. -/
structure CommandStep where
  Command : String
  Matrix : Option Matrix
  Signature : Option Signature
  deriving DecidableEq, Repr

/-- The part of `api.Job` that `verifyJob` reads, with the environment that
holds the job's own field values. -/
structure Job where
  ID : String
  Env : GoMap
  Step : CommandStep
  deriving DecidableEq, Repr

/-- A `pipeline.Verifier`, identified by the key it verifies with. -/
structure Verifier where
  Key : String
  deriving DecidableEq, Repr

/-- The methods `verifyJob` calls on its arguments. `Verify` answers `none`
for a signature that verifies. -/
structure SigningMethods where
  Verify : Signature → CommandStep → Verifier → Option GoError
  JobValuesForFields : Job → List String → Except GoError GoMap
  StepValuesForFields : CommandStep → List String → Except GoError GoMap

/-- What a run of `verifyJob` leaves behind: the returned error (`none` is
nil), the warnings logged, and the calls made to `Signature.Verify`. -/
structure VerifyRun where
  err : Option GoError
  warns : List String
  verified : List (Signature × CommandStep × Verifier)
  deriving DecidableEq, Repr

/-- The loop at the end of `verifyJob`: the first field of `signedFields`
whose value on the job differs from its value on the step. -/
def firstMismatch (jobFields stepFields : GoMap) : List String → Option String
  | [] => none
  | field :: rest =>
    if jobFields.get field ≠ stepFields.get field then some field
    else firstMismatch jobFields stepFields rest

/-- The method `JobRunner.verifyJob`, on the job `r.conf.Job`. -/
def verifyJob (m : SigningMethods) (job : Job) (verifier : Verifier) : VerifyRun :=
  let step := job.Step
  match step.Matrix with
  | some _ =>
    { err := none
      warns := ["Signing/Verification of matrix jobs is not currently supported",
                "Watch this space 👀"]
      verified := [] }
  | none =>
    match step.Signature with
    | none => { err := some ErrNoSignature, warns := [], verified := [] }
    | some signature =>
      match m.Verify signature step verifier with
      | some err =>
        { err := some (newInvalidSignatureError err), warns := []
          verified := [(signature, step, verifier)] }
      | none =>
        let signedFields := signature.SignedFields
        match m.JobValuesForFields job signedFields with
        | .error err =>
          { err := some (.wrapf "failed to get values for fields %v on job %s: %w"
              [.strs signedFields, .str job.ID] err)
            warns := [], verified := [(signature, step, verifier)] }
        | .ok jobFields =>
          match m.StepValuesForFields step signedFields with
          | .error err =>
            { err := some (.wrapf "failed to get values for fields %v on step: %w"
                [.strs signedFields] err)
              warns := [], verified := [(signature, step, verifier)] }
          | .ok stepFields =>
            match firstMismatch jobFields stepFields signedFields with
            | some field =>
              { err := some (newInvalidSignatureError (.errorf
                  "job %q was signed with signature %q, but the value of field %q on the job (%q) does not match the value of the field on the step (%q)"
                  [.str job.ID, .str signature.Value, .str field,
                    .str (jobFields.get field), .str (stepFields.get field)]))
                warns := [], verified := [(signature, step, verifier)] }
            | none => { err := none, warns := [], verified := [(signature, step, verifier)] }

/-- Signing methods for the worked examples: every signature verifies, the
only field a job or a step has is `"command"`, on the job as the variable
`BUILDKITE_COMMAND` of its environment. -/
def exampleSigning : SigningMethods :=
  { Verify := fun _ _ _ => none
    JobValuesForFields := fun job fields =>
      if fields.all (· == "command") then
        .ok (fields.map fun f => (f, job.Env.get "BUILDKITE_COMMAND"))
      else .error (.new "unknown or unsupported field for signing")
    StepValuesForFields := fun step fields =>
      if fields.all (· == "command") then .ok (fields.map fun f => (f, step.Command))
      else .error (.new "unknown or unsupported field for signing") }

/-- A job for the worked examples, running `command` with a step that was
signed for `signed`. -/
def exampleJob (command signed : String) (matrix : Option Matrix)
    (signature : Option Signature) : Job :=
  { ID := "job-1", Env := [("BUILDKITE_COMMAND", command)]
    Step := { Command := signed, Matrix := matrix, Signature := signature } }

/-! ## The meta-data commands (`meta_data_exists.go`, `meta_data_keys.go`)

The API client of package `api` and the retrier of the library `roko` are
outside the visible source. The client is a parameter that answers the n-th
request; the retrier is modelled as the library documents it. -/

/-- The part of `api.Response` that the commands read. -/
structure Response where
  StatusCode : Int
  deriving DecidableEq, Repr

/-- The struct `api.MetaDataExists`. -/
structure MetaDataExists where
  Exists : Bool
  deriving DecidableEq, Repr

/-- The three results of an API client method: the value (`none` is nil),
the response (`none` is nil) and the error (`none` is nil, otherwise its
message). -/
structure Reply (α : Type) where
  value : Option α
  resp : Option Response
  err : Option String

/-- The two methods of `api.Client` that the meta-data commands call. The
first argument is the number of the attempt, so that the server may answer
one attempt differently from another. -/
structure APIClient where
  ExistsMetaData : Nat → String → String → String → Reply MetaDataExists
  MetaDataKeys : Nat → String → String → Reply (List String)

/-- One request sent to the API. -/
inductive APIRequest where
  | ExistsMetaData (scope id key : String)
  | MetaDataKeys (scope id : String)
  deriving DecidableEq, Repr

/-- What a meta-data command has done: the requests sent in order, the
warnings logged (the error and the attempt it came from), the bytes written
to `c.App.Writer`. -/
structure APIWorld where
  requests : List APIRequest
  warns : List (String × Nat)
  out : String
  deriving DecidableEq, Repr

/-- The variables the retried closure assigns, and the world. -/
structure Attempt (α : Type) where
  value : Option α
  resp : Option Response
  world : APIWorld

/-- The retrier of `roko`, `NewRetrier(WithMaxAttempts(n), ...).DoWithContext`
on a context that is never cancelled, with `remaining` the attempts left after
the coming one. The callback answers with the new state, whether it called
`r.Break()`, and its error. The loop returns nil on the first attempt without
an error, and the last error once an attempt has called `Break` or no attempt
is left. -/
def doWithRetry {σ : Type} (callback : Nat → σ → σ × Bool × Option String) :
    Nat → Nat → σ → σ × Option String
  | 0, attempt, s =>
    match callback attempt s with
    | (s', _, none) => (s', none)
    | (s', _, some err) => (s', some err)
  | remaining + 1, attempt, s =>
    match callback attempt s with
    | (s', _, none) => (s', none)
    | (s', broke, some err) =>
      if broke then (s', some err) else doWithRetry callback remaining (attempt + 1) s'

/-- The test `resp != nil && (resp.StatusCode == 401 || resp.StatusCode == 404)`. -/
def shouldBreak (resp : Option Response) : Bool :=
  match resp with
  | some r => r.StatusCode == 401 || r.StatusCode == 404
  | none => false

/-- The closure both commands hand to the retrier: send the request, break on
401 and 404, and on an error log a warning and return the error. -/
def retryCallback {α : Type} (call : Nat → Reply α) (request : APIRequest)
    (attempt : Nat) (s : Attempt α) : Attempt α × Bool × Option String :=
  let reply := call attempt
  let world := { s.world with requests := s.world.requests ++ [request] }
  match reply.err with
  | some err =>
    ({ value := reply.value, resp := reply.resp
       world := { world with warns := world.warns ++ [(err, attempt)] } },
      shouldBreak reply.resp, some err)
  | none => ({ value := reply.value, resp := reply.resp, world := world },
      shouldBreak reply.resp, none)

/-- The struct `MetaDataExistsConfig`. -/
structure MetaDataExistsConfig where
  Key : String
  Job : String
  Build : String
  Debug : Bool
  LogLevel : String
  NoColor : Bool
  Experiments : List String
  Profile : String
  DebugHTTP : Bool
  AgentAccessToken : String
  Endpoint : String
  NoHTTP2 : Bool
  deriving DecidableEq, Repr

/-- The struct `MetaDataKeysConfig`. -/
structure MetaDataKeysConfig where
  Job : String
  Build : String
  Debug : Bool
  LogLevel : String
  NoColor : Bool
  Experiments : List String
  Profile : String
  DebugHTTP : Bool
  AgentAccessToken : String
  Endpoint : String
  NoHTTP2 : Bool
  deriving DecidableEq, Repr

/-- The world a meta-data command starts from. -/
def APIWorld.init : APIWorld := { requests := [], warns := [], out := "" }

/-- The assignments `scope := "job"; id := cfg.Job` followed by the override
`if cfg.Build != ""` of both commands. -/
def metaDataScope (job build : String) : String × String :=
  let scope := "job"
  let id := job
  if build ≠ "" then ("build", build) else (scope, id)

/-- The `Action` of `MetaDataExistsCommand`. Reading `exists.Exists` through a
nil pointer panics, which ends a Go process with status 2. -/
def metaDataExistsAction (client : APIClient) (cfg : MetaDataExistsConfig) :
    Except Halt Unit × APIWorld :=
  let (scope, id) := metaDataScope cfg.Job cfg.Build
  match doWithRetry
      (retryCallback (fun n => client.ExistsMetaData n scope id cfg.Key)
        (.ExistsMetaData scope id cfg.Key))
      (10 - 1) 0 { value := none, resp := none, world := APIWorld.init } with
  | (s, some err) => (.error (.fatal "Failed to see if meta-data exists: %s" [err]), s.world)
  | (s, none) =>
    match s.value with
    | none => (.error (.exit 2), s.world)
    | some found => if !found.Exists then (.error (.exit 100), s.world) else (.ok (), s.world)

/-- The loop `for _, key := range keys` with `fmt.Fprintf(w, "%s\n", key)`. -/
def printKeys (keys : List String) (w : APIWorld) : APIWorld :=
  keys.foldl (fun w key => { w with out := w.out ++ key ++ "\n" }) w

/-- The `Action` of `MetaDataKeysCommand`; a nil slice of keys ranges as an
empty one. -/
def metaDataKeysAction (client : APIClient) (cfg : MetaDataKeysConfig) :
    Except Halt Unit × APIWorld :=
  let (scope, id) := metaDataScope cfg.Job cfg.Build
  match doWithRetry
      (retryCallback (fun n => client.MetaDataKeys n scope id) (.MetaDataKeys scope id))
      (10 - 1) 0 { value := none, resp := none, world := APIWorld.init } with
  | (s, some err) => (.error (.fatal "Failed to find meta-data keys: %s" [err]), s.world)
  | (s, none) => (.ok (), printKeys (s.value.getD []) s.world)

/-- An exists configuration for the worked examples. -/
def exampleExistsConfig (key job build : String) : MetaDataExistsConfig :=
  { Key := key, Job := job, Build := build, Debug := false, LogLevel := "notice",
    NoColor := false, Experiments := [], Profile := "", DebugHTTP := false,
    AgentAccessToken := "token", Endpoint := "https://agent.buildkite.com/v3", NoHTTP2 := false }

/-- A keys configuration for the worked examples. -/
def exampleKeysConfig (job build : String) : MetaDataKeysConfig :=
  { Job := job, Build := build, Debug := false, LogLevel := "notice",
    NoColor := false, Experiments := [], Profile := "", DebugHTTP := false,
    AgentAccessToken := "token", Endpoint := "https://agent.buildkite.com/v3", NoHTTP2 := false }

/-- An API for the worked examples. The first attempt of every request times
out; after that the key `"foo"` exists and no other does, and the keys are
`"foo"` and `"bar"`. A request for the build `"gone"` is answered 404. -/
def exampleAPI : APIClient :=
  { ExistsMetaData := fun n _ id key =>
      if id = "gone" then
        { value := none, resp := some ⟨404⟩, err := some "404 Not Found" }
      else if n = 0 then { value := none, resp := none, err := some "timeout" }
      else { value := some ⟨key == "foo"⟩, resp := some ⟨200⟩, err := none }
    MetaDataKeys := fun n _ id =>
      if id = "gone" then
        { value := none, resp := some ⟨404⟩, err := some "404 Not Found" }
      else if n = 0 then { value := none, resp := none, err := some "timeout" }
      else { value := some ["foo", "bar"], resp := some ⟨200⟩, err := none } }

/-- The lookup through `call` succeeds at attempt `n`, counted from 0: each
earlier attempt returned an error without a 401 or 404 response, this attempt
is one of the ten and returns no error. -/
def LookupSucceeds {α : Type} (call : Nat → Reply α) (n : Nat) : Prop :=
  n < 10 ∧ (∀ i < n, (call i).err ≠ none ∧ shouldBreak (call i).resp = false) ∧
    (call n).err = none

/-- The lookup through `call` fails at attempt `n` with `err`: each earlier
attempt returned an error without a 401 or 404 response, and this attempt
returns `err` and either has a 401 or 404 response or is the tenth. -/
def LookupFails {α : Type} (call : Nat → Reply α) (n : Nat) (err : String) : Prop :=
  n < 10 ∧ (∀ i < n, (call i).err ≠ none ∧ shouldBreak (call i).resp = false) ∧
    (call n).err = some err ∧ (shouldBreak (call n).resp = true ∨ n = 9)

/-! ## Artifact search (`artifact_search.go`)

The searcher of package `agent` and the type `api.Artifact` are outside the
visible source: the search is a parameter, and an artifact carries the fields
the command prints. `strings.Replacer` is modelled as the Go library documents
it. -/

/-- A `time.Time`, represented by its text in the layout `time.RFC3339`. -/
structure Time where
  RFC3339 : String
  deriving DecidableEq, Repr

/-- The call `t.Format(time.RFC3339)`. -/
def Time.FormatRFC3339 (t : Time) : String := t.RFC3339

/-- The call `strconv.FormatInt(i, 10)`: decimal digits, with a minus sign for
a negative number. -/
def FormatInt10 (i : Int) : String := toString i

/-- The fields of `api.Artifact` that the command prints. -/
structure Artifact where
  ID : String
  Path : String
  CreatedAt : Time
  JobID : String
  FileSize : Int
  Sha1Sum : String
  URL : String
  deriving DecidableEq, Repr

/-- A `strings.Replacer` built by `strings.NewReplacer(old1, new1, ...)`: the
pairs in argument order, as characters. -/
structure Replacer where
  oldnew : List (List Char × List Char)

/-- The pair a replacer applies at the head of `s`: the first pair in argument
order whose old string is not empty and starts `s`. -/
def Replacer.lookup (r : Replacer) (s : List Char) : Option (List Char × List Char) :=
  r.oldnew.find? fun p => !p.1.isEmpty && p.1.isPrefixOf s

/-- The scan of `Replace`, with `skip` characters of a match still to pass
over. Replacements are made in the order they appear in the text, without
overlapping matches, and replaced text is not scanned again. -/
def Replacer.scan (r : Replacer) : Nat → List Char → List Char
  | _, [] => []
  | skip + 1, _ :: rest => r.scan skip rest
  | 0, c :: rest =>
    match r.lookup (c :: rest) with
    | some (old, new) => new ++ r.scan (old.length - 1) rest
    | none => c :: r.scan 0 rest

/-- The method `Replace` of a replacer whose old strings are not empty. -/
def Replacer.Replace (r : Replacer) (s : String) : String :=
  String.mk (r.scan 0 s.data)

/-- The replacer the command builds for one artifact, pairs in source order. -/
def artifactReplacer (artifact : Artifact) : Replacer :=
  { oldnew := [
      (['%', 'p'], artifact.Path.data),
      (['%', 'c'], artifact.CreatedAt.FormatRFC3339.data),
      (['%', 'j'], artifact.JobID.data),
      (['%', 's'], (FormatInt10 artifact.FileSize).data),
      (['%', 'S'], artifact.Sha1Sum.data),
      (['%', 'u'], artifact.URL.data),
      (['%', 'i'], artifact.ID.data)] }

/-- The struct `ArtifactSearchConfig`. -/
structure ArtifactSearchConfig where
  Query : String
  Step : String
  Build : String
  IncludeRetriedJobs : Bool
  AllowEmptyResults : Bool
  PrintFormat : String
  Debug : Bool
  LogLevel : String
  NoColor : Bool
  Experiments : List String
  Profile : String
  DebugHTTP : Bool
  AgentAccessToken : String
  Endpoint : String
  NoHTTP2 : Bool
  deriving DecidableEq, Repr

/-- What the command takes from outside: the searcher for a build, answering
`Search(ctx, query, step, includeRetriedJobs, includeDuplicates)`, and the
application writer, answering the n-th `fmt.Fprint` with its error. -/
structure SearchEnv where
  Search : String → String → String → Bool → Bool → Except String (List Artifact)
  Fprint : Nat → String → Option String

/-- What the command has done: the messages logged with `l.Info` and the
operands of its calls of `fmt.Fprint` on `c.App.Writer`, in order. -/
structure SearchWorld where
  infos : List (String × List String)
  prints : List String
  deriving DecidableEq, Repr

/-- The loop `for _, artifact := range artifacts`, from the n-th print on: the
operands printed, and the error of the print that failed, if one did. -/
def printArtifacts (fprint : Nat → String → Option String) (format : String) :
    Nat → List Artifact → List String × Option String
  | _, [] => ([], none)
  | n, artifact :: rest =>
    let r := artifactReplacer artifact
    match fprint n (r.Replace format) with
    | some err => ([r.Replace format], some err)
    | none =>
      ((r.Replace format) :: (printArtifacts fprint format (n + 1) rest).1,
        (printArtifacts fprint format (n + 1) rest).2)

/-- The end of the `Action` of `ArtifactSearchCommand`, from the loop over the
artifacts on: the error of a failed print is returned, otherwise nil. -/
def printAndReturn (env : SearchEnv) (cfg : ArtifactSearchConfig)
    (artifacts : List Artifact) (infos : List (String × List String)) :
    Except Halt (Option String) × SearchWorld :=
  match printArtifacts env.Fprint cfg.PrintFormat 0 artifacts with
  | (prints, some err) => (.ok (some err), { infos := infos, prints := prints })
  | (prints, none) => (.ok none, { infos := infos, prints := prints })

/-- The `Action` of `ArtifactSearchCommand`. It returns an error (`some`) or
nil (`none`), or halts in `Fatal`. -/
def artifactSearchAction (env : SearchEnv) (cfg : ArtifactSearchConfig) :
    Except Halt (Option String) × SearchWorld :=
  match env.Search cfg.Build cfg.Query cfg.Step cfg.IncludeRetriedJobs true with
  | .error err => (.ok (some err), { infos := [], prints := [] })
  | .ok artifacts =>
    if artifacts.length = 0 then
      if cfg.AllowEmptyResults then
        printAndReturn env cfg artifacts [("No matches found for %q", [cfg.Query])]
      else
        (.error (.fatal "No matches found for %q" [cfg.Query]), { infos := [], prints := [] })
    else
      printAndReturn env cfg artifacts []

/-- The value a format specifier stands for: `%i` the artifact ID, `%p` its
path, `%c` its creation time in RFC 3339, `%j` the ID of the uploading job,
`%s` its file size in decimal, `%S` its SHA1 checksum and `%u` its URL. -/
def specifierValue (artifact : Artifact) : Char → Option String
  | 'i' => some artifact.ID
  | 'p' => some artifact.Path
  | 'c' => some artifact.CreatedAt.RFC3339
  | 'j' => some artifact.JobID
  | 's' => some (toString artifact.FileSize)
  | 'S' => some artifact.Sha1Sum
  | 'u' => some artifact.URL
  | _ => none

/-- The format expansion as the help text describes it: one pass from left to
right in which every specifier is replaced by its value, all other text is
copied unchanged, and inserted text is not expanded. -/
def expandSpecifiers (artifact : Artifact) : List Char → List Char
  | [] => []
  | [x] => [x]
  | x :: c :: rest =>
    if x = '%' then
      match specifierValue artifact c with
      | some v => v.data ++ expandSpecifiers artifact rest
      | none => x :: expandSpecifiers artifact (c :: rest)
    else x :: expandSpecifiers artifact (c :: rest)

/-- An artifact for the worked examples. -/
def exampleArtifact (id path : String) : Artifact :=
  { ID := id, Path := path, CreatedAt := ⟨"2023-06-01T12:00:00Z"⟩, JobID := "job-1",
    FileSize := 1024, Sha1Sum := "da39a3ee", URL := "https://example.com/" ++ id }

/-- A search configuration for the worked examples. -/
def exampleSearchConfig (query format : String) (allowEmpty : Bool) : ArtifactSearchConfig :=
  { Query := query, Step := "", Build := "build-7", IncludeRetriedJobs := false,
    AllowEmptyResults := allowEmpty, PrintFormat := format, Debug := false,
    LogLevel := "notice", NoColor := false, Experiments := [], Profile := "",
    DebugHTTP := false, AgentAccessToken := "token",
    Endpoint := "https://agent.buildkite.com/v3", NoHTTP2 := false }

/-- A search environment for the worked examples: the query `"pkg/*"` finds
two artifacts and any other query none; every print succeeds. -/
def exampleSearchEnv : SearchEnv :=
  { Search := fun _ query _ _ _ =>
      if query = "pkg/*" then
        .ok [exampleArtifact "a1" "pkg/a.tar.gz", exampleArtifact "a2" "pkg/%p.tar.gz"]
      else .ok []
    Fprint := fun _ _ => none }

/-! ## Reading the job environment (`env_get.go`)

The packages `jobapi` and `env` are outside the visible source, and the JSON
encoder is Go's: the client, the rendering of a map as sorted `KEY=value`
lines and the encoder are parameters. -/

/-- The constant `envClientErrMessage`. -/
def envClientErrMessage : String :=
  String.join [
    "Could not create Job API client: %v\n",
    "This command can only be used from hooks or plugins running under a job executor\n",
    "where the \"job-api\" experiment is enabled.\n"]

/-- The struct `EnvGetConfig`. -/
structure EnvGetConfig where
  Format : String
  Debug : Bool
  LogLevel : String
  NoColor : Bool
  Experiments : List String
  Profile : String
  deriving DecidableEq, Repr

/-- The client returned by `jobapi.NewDefaultClient`. -/
structure JobClient where
  EnvGet : Context → Except String GoMap

/-- What `envGetAction` takes from outside `clicommand`: the constructor of
the Job API client, `env.FromMap(m).ToSlice()`, and `Encode` of a
`json.Encoder` on the app writer (indented or not), which answers with the
text it wrote or with its error. -/
structure JobAPI where
  NewDefaultClient : Context → Except String JobClient
  ToSlice : GoMap → List String
  Encode : Bool → GoMap → Except String String

/-- What `envGetAction` has done: the bytes written to `c.App.Writer`, the
names warned about as not set, and the messages logged with `l.Error`. -/
structure EnvWorld where
  out : String
  warns : List String
  errors : List (String × List String)
  deriving DecidableEq, Repr

/-- The loop `for _, arg := range c.Args()` over the state `em`, `notFound`
and the warnings: a name that is not set raises `notFound` and is warned
about, a name that is set is copied into `em` with its value. -/
def envFilterLoop (envMap : GoMap) :
    List String → GoMap × Bool × List String → GoMap × Bool × List String
  | [], s => s
  | arg :: rest, (em, notFound, warns) =>
    match envMap.lookup arg with
    | none => envFilterLoop envMap rest (em, true, warns ++ [arg])
    | some v => envFilterLoop envMap rest (upsert arg v em, notFound, warns)

/-- A loop of `fmt.Fprintln(c.App.Writer, v)` over `lines`. -/
def printLines (lines : List String) (out : String) : String :=
  lines.foldl (fun out v => out ++ v ++ "\n") out

/-- The `switch cfg.Format` of `envGetAction`: the world after printing, or
the `Fatal` of a failed JSON encoding. -/
def envPrint (api : JobAPI) (format : String) (nargs : Nat) (envMap : GoMap)
    (w : EnvWorld) : Except Halt EnvWorld :=
  if format = "plain" then
    if nargs = 1 then
      .ok { w with out := printLines (envMap.map fun p => p.2) w.out }
    else
      .ok { w with out := printLines (api.ToSlice envMap) w.out }
  else if format = "json" ∨ format = "json-pretty" then
    match api.Encode (format == "json-pretty") envMap with
    | .error err => .error (.fatal "Error marshalling JSON: %v\n" [err])
    | .ok text => .ok { w with out := w.out ++ text }
  else
    .ok { w with errors := w.errors ++ [("Invalid output format %q\n", [format])] }

/-- The function `envGetAction` of `env_get.go`, with `args` for `c.Args()`. -/
def envGetAction (api : JobAPI) (cfg : EnvGetConfig) (args : List String) :
    Except Halt Unit × EnvWorld :=
  let ctx := Context.Background
  match api.NewDefaultClient ctx with
  | .error err =>
    (.error (.fatal envClientErrMessage [err]), { out := "", warns := [], errors := [] })
  | .ok client =>
    match client.EnvGet ctx with
    | .error err =>
      (.error (.fatal "Couldn't fetch the job executor environment variables: %v\n" [err]),
        { out := "", warns := [], errors := [] })
    | .ok envMap =>
      let filtered :=
        if args.length > 0 then envFilterLoop envMap args ([], false, [])
        else (envMap, false, [])
      let w : EnvWorld := { out := "", warns := filtered.2.2, errors := [] }
      match envPrint api cfg.Format args.length filtered.1 w with
      | .error halt => (.error halt, w)
      | .ok w' => if filtered.2.1 then (.error (.exit 1), w') else (.ok (), w')

/-- The job environment of the worked examples. -/
def exampleJobEnv : GoMap :=
  [("ALPACA", "Geronimo the Incredible"), ("BUILDKITE", "true"), ("LLAMA", "Kuzco")]

/-- A Job API client for the worked examples, answering with `exampleJobEnv`. -/
def exampleJobClient : JobClient :=
  { EnvGet := fun _ => .ok exampleJobEnv }

/-- A Job API for the worked examples: the client is `exampleJobClient`,
lines are `KEY=value` in map order, and the encoder never fails. -/
def exampleJobAPI : JobAPI :=
  { NewDefaultClient := fun _ => .ok exampleJobClient
    ToSlice := fun m => m.map fun p => p.1 ++ "=" ++ p.2
    Encode := fun _ m => .ok (String.join (m.map fun p => p.1 ++ ":" ++ p.2 ++ ";")) }

/-- The Job API of the worked examples with an encoder that fails on every
map, as it does when the app writer is closed. -/
def exampleFailingEncoderAPI : JobAPI :=
  { exampleJobAPI with Encode := fun _ _ => .error "write /dev/stdout: broken pipe" }

/-- An `env get` configuration for the worked examples. -/
def exampleEnvGetConfig (format : String) : EnvGetConfig :=
  { Format := format, Debug := false, LogLevel := "notice", NoColor := false,
    Experiments := [], Profile := "" }

/-- The map `em` that `envGetAction` prints when names are given: what the
loop over the arguments builds from the empty map. -/
def filteredEnv (envMap : GoMap) (args : List String) : GoMap :=
  (envFilterLoop envMap args ([], false, [])).1

/-! ## Directory names (`internal/job`)

Of `dirForAgentName` and `dirForRepository` only the tests are in the visible
source (`executor_test.go`); the functions are modelled from their
description and checked against the test tables. -/

/-- Modelled from the spec: the replacement both functions make, which their
code in `internal/job` (not in the visible source) applies to every character:
an ASCII letter or digit stays, any other character becomes `-`. -/
def safeDirChar (c : Char) : Char :=
  if c.isAlphanum then c else '-'

/-- Modelled from the spec: `dirForAgentName` of `internal/job`, which is not
in the visible source. Each character of the agent name that is not an ASCII
letter or digit is replaced by a single "-". -/
def dirForAgentName (agentName : String) : String :=
  String.mk (agentName.data.map safeDirChar)

/-- Modelled from the spec: `dirForRepository` of `internal/job`, which is not
in the visible source. Each character of the repository URL that is not an
ASCII letter or digit is replaced by a single "-". -/
def dirForRepository (repository : String) : String :=
  String.mk (repository.data.map safeDirChar)

/-- The table `agentNameTests` of `executor_test.go`: agent name, expected. -/
def agentNameTests : List (String × String) :=
  [("My Agent", "My-Agent"),
   (":docker: My Agent", "-docker--My-Agent"),
   ("My \"Agent\"", "My--Agent-")]

/-- The table `repositoryNameTests` of `executor_test.go`: repository name,
expected. -/
def repositoryNameTests : List (String × String) :=
  [("git@github.com:acme-inc/my-project.git", "git-github-com-acme-inc-my-project-git"),
   ("https://github.com/acme-inc/my-project.git", "https---github-com-acme-inc-my-project-git")]

/-! ## What each action does, call by call -/

theorem waitContext_eq (d : Int) :
    (if d ≠ 0 then Context.WithTimeout Context.Background d else Context.Background)
      = waitContext d := by
  by_cases hd : d = 0 <;> simp [hd, waitContext, Context.WithTimeout, Context.Background]

theorem acquire_exec_scope (env : Env) (cfg : LockAcquireConfig) (key : String)
    (h : cfg.LockScope ≠ "machine") :
    (lockAcquireAction env cfg [key]).exec = (.error scopeFatal, World.init) := by
  simp [lockAcquireAction, Action.exec, h, Fatal, scopeFatal]

theorem acquire_exec_args (env : Env) (cfg : LockAcquireConfig) (args : List String)
    (h : args.length ≠ 1) :
    (lockAcquireAction env cfg args).exec =
      (.error (.exit 1), { calls := [], out := "", err := lockAcquireHelpDescription }) := by
  simp [lockAcquireAction, Action.exec, h, osExit, fprintErr, World.init]
  rfl

theorem acquire_exec (env : Env) (cfg : LockAcquireConfig) (key : String)
    (h : cfg.LockScope = "machine") :
    (lockAcquireAction env cfg [key]).exec =
      match env.NewClient (waitContext cfg.LockWaitTimeout) cfg.SocketsPath with
      | .error e =>
        (.error (.fatal env.lockClientErrMessage [e]),
          { calls := [.NewClient (waitContext cfg.LockWaitTimeout) cfg.SocketsPath],
            out := "", err := "" })
      | .ok client =>
        match client.Lock (waitContext cfg.LockWaitTimeout) key with
        | .error e =>
          (.error (.fatal "Could not acquire lock: %v\n" [e]),
            { calls := [.NewClient (waitContext cfg.LockWaitTimeout) cfg.SocketsPath,
                        .Lock (waitContext cfg.LockWaitTimeout) key],
              out := "", err := "" })
        | .ok token =>
          (.ok (),
            { calls := [.NewClient (waitContext cfg.LockWaitTimeout) cfg.SocketsPath,
                        .Lock (waitContext cfg.LockWaitTimeout) key],
              out := token ++ "\n", err := "" }) := by
  have hctx := waitContext_eq cfg.LockWaitTimeout
  generalize waitContext cfg.LockWaitTimeout = ctx at hctx
  cases hN : env.NewClient ctx cfg.SocketsPath with
  | error e =>
    by_cases hd : cfg.LockWaitTimeout = 0 <;>
    simp [hd] at hctx <;> subst hctx <;>
    simp [lockAcquireAction, Action.exec, h, hd, Fatal, newClient, record,
        clientLock, fprintlnOut, World.init, hN] <;>
    rfl
  | ok client =>
    cases hL : client.Lock ctx key with
    | error e =>
      by_cases hd : cfg.LockWaitTimeout = 0 <;>
      simp [hd] at hctx <;> subst hctx <;>
      simp [lockAcquireAction, Action.exec, h, hd, Fatal, newClient, record,
          clientLock, fprintlnOut, World.init, hN, hL] <;>
      rfl
    | ok token =>
      by_cases hd : cfg.LockWaitTimeout = 0 <;>
      simp [hd] at hctx <;> subst hctx <;>
      simp [lockAcquireAction, Action.exec, h, hd, Fatal, newClient, record,
          clientLock, fprintlnOut, World.init, hN, hL] <;>
      rfl

theorem do_exec_scope (env : Env) (cfg : LockDoConfig) (key : String)
    (h : cfg.LockScope ≠ "machine") :
    (lockDoAction env cfg [key]).exec = (.error scopeFatal, World.init) := by
  simp [lockDoAction, Action.exec, h, Fatal, scopeFatal]

theorem do_exec_args (env : Env) (cfg : LockDoConfig) (args : List String)
    (h : args.length ≠ 1) :
    (lockDoAction env cfg args).exec =
      (.error (.exit 1), { calls := [], out := "", err := lockDoHelpDescription }) := by
  simp [lockDoAction, Action.exec, h, osExit, fprintErr, World.init]
  rfl

theorem do_exec (env : Env) (cfg : LockDoConfig) (key : String)
    (h : cfg.LockScope = "machine") :
    (lockDoAction env cfg [key]).exec =
      match env.NewClient (waitContext cfg.LockWaitTimeout) cfg.SocketsPath with
      | .error e =>
        (.error (.fatal env.lockClientErrMessage [e]),
          { calls := [.NewClient (waitContext cfg.LockWaitTimeout) cfg.SocketsPath],
            out := "", err := "" })
      | .ok client =>
        match client.DoOnceStart (waitContext cfg.LockWaitTimeout) key with
        | .error e =>
          (.error (.fatal "Couldn't start do-once lock: %v\n" [e]),
            { calls := [.NewClient (waitContext cfg.LockWaitTimeout) cfg.SocketsPath,
                        .DoOnceStart (waitContext cfg.LockWaitTimeout) key],
              out := "", err := "" })
        | .ok doIt =>
          (.ok (),
            { calls := [.NewClient (waitContext cfg.LockWaitTimeout) cfg.SocketsPath,
                        .DoOnceStart (waitContext cfg.LockWaitTimeout) key],
              out := (if doIt then "do" else "done") ++ "\n", err := "" }) := by
  have hctx := waitContext_eq cfg.LockWaitTimeout
  generalize waitContext cfg.LockWaitTimeout = ctx at hctx
  cases hN : env.NewClient ctx cfg.SocketsPath with
  | error e =>
    by_cases hd : cfg.LockWaitTimeout = 0 <;>
    simp [hd] at hctx <;> subst hctx <;>
    simp [lockDoAction, Action.exec, h, hd, Fatal, newClient, record,
        clientDoOnceStart, fprintlnOut, World.init, hN] <;>
    rfl
  | ok client =>
    cases hL : client.DoOnceStart ctx key with
    | error e =>
      by_cases hd : cfg.LockWaitTimeout = 0 <;>
      simp [hd] at hctx <;> subst hctx <;>
      simp [lockDoAction, Action.exec, h, hd, Fatal, newClient, record,
          clientDoOnceStart, fprintlnOut, World.init, hN, hL] <;>
      rfl
    | ok doIt =>
      cases doIt <;>
      by_cases hd : cfg.LockWaitTimeout = 0 <;>
      simp [hd] at hctx <;> subst hctx <;>
      simp [lockDoAction, Action.exec, h, hd, Fatal, newClient, record,
          clientDoOnceStart, fprintlnOut, World.init, hN, hL] <;>
      rfl

theorem release_exec_scope (env : Env) (cfg : LockReleaseConfig) (key token : String)
    (h : cfg.LockScope ≠ "machine") :
    (lockReleaseAction env cfg [key, token]).exec = (.error scopeFatal, World.init) := by
  simp [lockReleaseAction, Action.exec, h, Fatal, scopeFatal]

theorem release_exec_args (env : Env) (cfg : LockReleaseConfig) (args : List String)
    (h : args.length ≠ 2) :
    (lockReleaseAction env cfg args).exec =
      (.error (.exit 1), { calls := [], out := "", err := lockReleaseHelpDescription }) := by
  simp [lockReleaseAction, Action.exec, h, osExit, fprintErr, World.init]
  rfl

theorem release_exec (env : Env) (cfg : LockReleaseConfig) (key token : String)
    (h : cfg.LockScope = "machine") :
    (lockReleaseAction env cfg [key, token]).exec =
      match env.NewClient Context.Background cfg.SocketsPath with
      | .error e =>
        (.error (.fatal env.lockClientErrMessage [e]),
          { calls := [.NewClient Context.Background cfg.SocketsPath], out := "", err := "" })
      | .ok client =>
        match client.Unlock Context.Background key token with
        | .error e =>
          (.error (.fatal "Could not release lock: %v" [e]),
            { calls := [.NewClient Context.Background cfg.SocketsPath,
                        .Unlock Context.Background key token],
              out := "", err := "" })
        | .ok _ =>
          (.ok (),
            { calls := [.NewClient Context.Background cfg.SocketsPath,
                        .Unlock Context.Background key token],
              out := "", err := "" }) := by
  cases hN : env.NewClient Context.Background cfg.SocketsPath with
  | error e =>
    simp [lockReleaseAction, Action.exec, h, Fatal, newClient, record,
        clientUnlock, World.init, hN]
    rfl
  | ok client =>
    cases hL : client.Unlock Context.Background key token with
    | error e =>
      simp [lockReleaseAction, Action.exec, h, Fatal, newClient, record,
          clientUnlock, World.init, hN, hL]
      rfl
    | ok u =>
      simp [lockReleaseAction, Action.exec, h, Fatal, newClient, record,
          clientUnlock, World.init, hN, hL]
      rfl

theorem get_exec_scope (env : Env) (cfg : LockGetConfig) (key : String)
    (h : cfg.LockScope ≠ "machine") :
    (lockGetAction env cfg [key]).exec = (.error scopeFatal, World.init) := by
  simp [lockGetAction, Action.exec, h, Fatal, scopeFatal]

theorem get_exec_args (env : Env) (cfg : LockGetConfig) (args : List String)
    (h : args.length ≠ 1) :
    (lockGetAction env cfg args).exec =
      (.error (.exit 1), { calls := [], out := "", err := lockGetHelpDescription }) := by
  simp [lockGetAction, Action.exec, h, osExit, fprintErr, World.init]
  rfl

theorem get_exec (env : Env) (cfg : LockGetConfig) (key : String)
    (h : cfg.LockScope = "machine") :
    (lockGetAction env cfg [key]).exec =
      match env.NewClient Context.Background cfg.SocketsPath with
      | .error e =>
        (.error (.fatal env.lockClientErrMessage [e]),
          { calls := [.NewClient Context.Background cfg.SocketsPath], out := "", err := "" })
      | .ok client =>
        match client.Get Context.Background key with
        | .error e =>
          (.error (.fatal "Couldn't get lock state: %v" [e]),
            { calls := [.NewClient Context.Background cfg.SocketsPath,
                        .Get Context.Background key],
              out := "", err := "" })
        | .ok v =>
          (.ok (),
            { calls := [.NewClient Context.Background cfg.SocketsPath,
                        .Get Context.Background key],
              out := v ++ "\n", err := "" }) := by
  cases hN : env.NewClient Context.Background cfg.SocketsPath with
  | error e =>
    simp [lockGetAction, Action.exec, h, Fatal, newClient, record,
        clientGet, fprintlnOut, World.init, hN]
    rfl
  | ok client =>
    cases hL : client.Get Context.Background key with
    | error e =>
      simp [lockGetAction, Action.exec, h, Fatal, newClient, record,
          clientGet, fprintlnOut, World.init, hN, hL]
      rfl
    | ok v =>
      simp [lockGetAction, Action.exec, h, Fatal, newClient, record,
          clientGet, fprintlnOut, World.init, hN, hL]
      rfl

/-! ## The lock subcommands -/

theorem acquire_no_calls (env : Env) (cfg : LockAcquireConfig) (args : List String)
    (h : cfg.LockScope ≠ "machine") : (lockAcquireAction env cfg args).exec.2.calls = [] := by
  by_cases hl : args.length = 1
  · obtain ⟨key, rfl⟩ := List.length_eq_one.mp hl
    rw [acquire_exec_scope env cfg key h]; rfl
  · rw [acquire_exec_args env cfg args hl]

theorem do_no_calls (env : Env) (cfg : LockDoConfig) (args : List String)
    (h : cfg.LockScope ≠ "machine") : (lockDoAction env cfg args).exec.2.calls = [] := by
  by_cases hl : args.length = 1
  · obtain ⟨key, rfl⟩ := List.length_eq_one.mp hl
    rw [do_exec_scope env cfg key h]; rfl
  · rw [do_exec_args env cfg args hl]

theorem get_no_calls (env : Env) (cfg : LockGetConfig) (args : List String)
    (h : cfg.LockScope ≠ "machine") : (lockGetAction env cfg args).exec.2.calls = [] := by
  by_cases hl : args.length = 1
  · obtain ⟨key, rfl⟩ := List.length_eq_one.mp hl
    rw [get_exec_scope env cfg key h]; rfl
  · rw [get_exec_args env cfg args hl]

theorem release_no_calls (env : Env) (cfg : LockReleaseConfig) (args : List String)
    (h : cfg.LockScope ≠ "machine") : (lockReleaseAction env cfg args).exec.2.calls = [] := by
  by_cases hl : args.length = 2
  · obtain ⟨key, token, rfl⟩ := List.length_eq_two.mp hl
    rw [release_exec_scope env cfg key token h]; rfl
  · rw [release_exec_args env cfg args hl]

theorem stoppedAtScope_init : StoppedAtScope (.error scopeFatal, World.init) :=
  ⟨rfl, rfl, rfl⟩

theorem acquire_created (env : Env) (cfg : LockAcquireConfig) (key : String)
    (h : cfg.LockScope = "machine") :
    ClientCreated (lockAcquireAction env cfg [key]).exec cfg.SocketsPath := by
  rw [acquire_exec env cfg key h]
  cases env.NewClient (waitContext cfg.LockWaitTimeout) cfg.SocketsPath with
  | error e => exact ⟨by simp [scopeFatal], _, rfl⟩
  | ok client =>
    dsimp only
    cases client.Lock (waitContext cfg.LockWaitTimeout) key with
    | error e => exact ⟨by simp [scopeFatal], _, rfl⟩
    | ok r => exact ⟨by simp, _, rfl⟩

theorem do_created (env : Env) (cfg : LockDoConfig) (key : String)
    (h : cfg.LockScope = "machine") :
    ClientCreated (lockDoAction env cfg [key]).exec cfg.SocketsPath := by
  rw [do_exec env cfg key h]
  cases env.NewClient (waitContext cfg.LockWaitTimeout) cfg.SocketsPath with
  | error e => exact ⟨by simp [scopeFatal], _, rfl⟩
  | ok client =>
    dsimp only
    cases client.DoOnceStart (waitContext cfg.LockWaitTimeout) key with
    | error e => exact ⟨by simp [scopeFatal], _, rfl⟩
    | ok r => exact ⟨by simp, _, rfl⟩

theorem get_created (env : Env) (cfg : LockGetConfig) (key : String)
    (h : cfg.LockScope = "machine") :
    ClientCreated (lockGetAction env cfg [key]).exec cfg.SocketsPath := by
  rw [get_exec env cfg key h]
  cases env.NewClient Context.Background cfg.SocketsPath with
  | error e => exact ⟨by simp [scopeFatal], _, rfl⟩
  | ok client =>
    dsimp only
    cases client.Get Context.Background key with
    | error e => exact ⟨by simp [scopeFatal], _, rfl⟩
    | ok r => exact ⟨by simp, _, rfl⟩

theorem release_created (env : Env) (cfg : LockReleaseConfig) (key token : String)
    (h : cfg.LockScope = "machine") :
    ClientCreated (lockReleaseAction env cfg [key, token]).exec cfg.SocketsPath := by
  rw [release_exec env cfg key token h]
  cases env.NewClient Context.Background cfg.SocketsPath with
  | error e => exact ⟨by simp [scopeFatal], _, rfl⟩
  | ok client =>
    dsimp only
    cases client.Unlock Context.Background key token with
    | error e => exact ⟨by simp [scopeFatal], _, rfl⟩
    | ok r => exact ⟨by simp, _, rfl⟩

/-- C1: for each of the lock subcommands acquire, do, get and release, a
configured scope other than the exact string "machine" ends the action with
the scope `Fatal` and no call into the lock package (neither `lock.NewClient`
nor `Lock`, `DoOnceStart`, `Get`, `Unlock`), whatever the arguments; with
scope "machine" the check passes and the client is created. -/
theorem lock_scope_gate (env : Env) (ca : LockAcquireConfig) (cd : LockDoConfig)
    (cg : LockGetConfig) (cr : LockReleaseConfig) (key token : String) :
    ((ca.LockScope ≠ "machine" →
        StoppedAtScope (lockAcquireAction env ca [key]).exec ∧
        ∀ args, (lockAcquireAction env ca args).exec.2.calls = []) ∧
      (ca.LockScope = "machine" →
        ClientCreated (lockAcquireAction env ca [key]).exec ca.SocketsPath)) ∧
    ((cd.LockScope ≠ "machine" →
        StoppedAtScope (lockDoAction env cd [key]).exec ∧
        ∀ args, (lockDoAction env cd args).exec.2.calls = []) ∧
      (cd.LockScope = "machine" →
        ClientCreated (lockDoAction env cd [key]).exec cd.SocketsPath)) ∧
    ((cg.LockScope ≠ "machine" →
        StoppedAtScope (lockGetAction env cg [key]).exec ∧
        ∀ args, (lockGetAction env cg args).exec.2.calls = []) ∧
      (cg.LockScope = "machine" →
        ClientCreated (lockGetAction env cg [key]).exec cg.SocketsPath)) ∧
    ((cr.LockScope ≠ "machine" →
        StoppedAtScope (lockReleaseAction env cr [key, token]).exec ∧
        ∀ args, (lockReleaseAction env cr args).exec.2.calls = []) ∧
      (cr.LockScope = "machine" →
        ClientCreated (lockReleaseAction env cr [key, token]).exec cr.SocketsPath)) := by
  refine ⟨⟨fun h => ⟨?_, fun args => acquire_no_calls env ca args h⟩, acquire_created env ca key⟩,
    ⟨fun h => ⟨?_, fun args => do_no_calls env cd args h⟩, do_created env cd key⟩,
    ⟨fun h => ⟨?_, fun args => get_no_calls env cg args h⟩, get_created env cg key⟩,
    ⟨fun h => ⟨?_, fun args => release_no_calls env cr args h⟩,
      release_created env cr key token⟩⟩
  · rw [acquire_exec_scope env ca key h]; exact stoppedAtScope_init
  · rw [do_exec_scope env cd key h]; exact stoppedAtScope_init
  · rw [get_exec_scope env cg key h]; exact stoppedAtScope_init
  · rw [release_exec_scope env cr key token h]; exact stoppedAtScope_init

/-- C1 at concrete inputs: with scope "pipeline" all four actions stop at the
scope check, with scope "machine" all four create the client. -/
theorem lock_scope_gate_witness :
    ("pipeline" ≠ "machine") ∧
    StoppedAtScope (lockAcquireAction exampleEnv (exampleAcquireConfig "pipeline" 0) ["llama"]).exec ∧
    StoppedAtScope (lockDoAction exampleEnv (exampleDoConfig "pipeline" 0) ["llama"]).exec ∧
    StoppedAtScope (lockGetAction exampleEnv (exampleGetConfig "pipeline") ["llama"]).exec ∧
    StoppedAtScope
      (lockReleaseAction exampleEnv (exampleReleaseConfig "pipeline") ["llama", "abc123"]).exec ∧
    ClientCreated (lockAcquireAction exampleEnv (exampleAcquireConfig "machine" 0) ["llama"]).exec
      "/tmp/sockets" ∧
    ClientCreated (lockDoAction exampleEnv (exampleDoConfig "machine" 0) ["llama"]).exec
      "/tmp/sockets" ∧
    ClientCreated (lockGetAction exampleEnv (exampleGetConfig "machine") ["llama"]).exec
      "/tmp/sockets" ∧
    ClientCreated
      (lockReleaseAction exampleEnv (exampleReleaseConfig "machine") ["llama", "abc123"]).exec
      "/tmp/sockets" :=
  have bad := lock_scope_gate exampleEnv (exampleAcquireConfig "pipeline" 0)
    (exampleDoConfig "pipeline" 0) (exampleGetConfig "pipeline")
    (exampleReleaseConfig "pipeline") "llama" "abc123"
  have good := lock_scope_gate exampleEnv (exampleAcquireConfig "machine" 0)
    (exampleDoConfig "machine" 0) (exampleGetConfig "machine")
    (exampleReleaseConfig "machine") "llama" "abc123"
  ⟨by decide, (bad.1.1 (by decide)).1, (bad.2.1.1 (by decide)).1, (bad.2.2.1.1 (by decide)).1,
    (bad.2.2.2.1 (by decide)).1, good.1.2 rfl, good.2.1.2 rfl, good.2.2.1.2 rfl,
    good.2.2.2.2 rfl⟩

/-- C2: for every key, once the client exists, `lockAcquireAction` writes the
token returned by `client.Lock` followed by one newline to the app writer and
returns nil exactly when `client.Lock` returns no error; when `client.Lock`
returns an error (a wait-deadline expiry included) the command dies with
`Fatal` and nothing is written. -/
theorem lock_acquire_writes_token (env : Env) (cfg : LockAcquireConfig) (key : String)
    (client : Client) (hscope : cfg.LockScope = "machine")
    (hclient : env.NewClient (waitContext cfg.LockWaitTimeout) cfg.SocketsPath = .ok client) :
    (∀ token, client.Lock (waitContext cfg.LockWaitTimeout) key = .ok token →
        (lockAcquireAction env cfg [key]).exec.1 = .ok () ∧
        (lockAcquireAction env cfg [key]).exec.2.out = token ++ "\n" ∧
        exitStatus (lockAcquireAction env cfg [key]).exec.1 = 0) ∧
    (∀ e, client.Lock (waitContext cfg.LockWaitTimeout) key = .error e →
        (lockAcquireAction env cfg [key]).exec.1 =
          .error (.fatal "Could not acquire lock: %v\n" [e]) ∧
        (lockAcquireAction env cfg [key]).exec.2.out = "") ∧
    ((lockAcquireAction env cfg [key]).exec.1 = .ok () ↔
        ∃ token, client.Lock (waitContext cfg.LockWaitTimeout) key = .ok token) := by
  rw [acquire_exec env cfg key hscope, hclient]
  cases hL : client.Lock (waitContext cfg.LockWaitTimeout) key with
  | error e => simp [hL, exitStatus]
  | ok token => simp [hL, exitStatus]

/-- C2 at a concrete input: the leader grants `"abc123"`, and `abc123` plus a
newline is what `lock acquire llama` prints. -/
theorem lock_acquire_writes_token_witness :
    (exampleAcquireConfig "machine" 0).LockScope = "machine" ∧
    exampleEnv.NewClient (waitContext 0) "/tmp/sockets" = .ok exampleClient ∧
    (lockAcquireAction exampleEnv (exampleAcquireConfig "machine" 0) ["llama"]).exec.1 = .ok () ∧
    (lockAcquireAction exampleEnv (exampleAcquireConfig "machine" 0) ["llama"]).exec.2.out
      = "abc123\n" :=
  have h := (lock_acquire_writes_token exampleEnv (exampleAcquireConfig "machine" 0) "llama"
    exampleClient rfl rfl).1 "abc123" rfl
  ⟨rfl, rfl, h.1, h.2.1⟩

/-- C3: in lock acquire and lock do the wait deadline is optional. Every call
into the lock package is made with one and the same context: first
`lock.NewClient`, then (when the client exists) `client.Lock` or
`client.DoOnceStart`. That context has no deadline when `LockWaitTimeout` is
0 and carries a timeout of `d` when `LockWaitTimeout` is a non-zero `d`. -/
theorem lock_wait_deadline (env : Env) (ca : LockAcquireConfig) (cd : LockDoConfig)
    (key : String) (ha : ca.LockScope = "machine") (hd : cd.LockScope = "machine") :
    (∃ ctx : Context,
      (ca.LockWaitTimeout = 0 → ctx.timeout = none) ∧
      (ca.LockWaitTimeout ≠ 0 → ctx.timeout = some ca.LockWaitTimeout) ∧
      (lockAcquireAction env ca [key]).exec.2.calls.head? = some (.NewClient ctx ca.SocketsPath) ∧
      (∀ client, env.NewClient ctx ca.SocketsPath = .ok client →
        (lockAcquireAction env ca [key]).exec.2.calls =
          [.NewClient ctx ca.SocketsPath, .Lock ctx key]) ∧
      (∀ c ∈ (lockAcquireAction env ca [key]).exec.2.calls, c.ctx = ctx)) ∧
    (∃ ctx : Context,
      (cd.LockWaitTimeout = 0 → ctx.timeout = none) ∧
      (cd.LockWaitTimeout ≠ 0 → ctx.timeout = some cd.LockWaitTimeout) ∧
      (lockDoAction env cd [key]).exec.2.calls.head? = some (.NewClient ctx cd.SocketsPath) ∧
      (∀ client, env.NewClient ctx cd.SocketsPath = .ok client →
        (lockDoAction env cd [key]).exec.2.calls =
          [.NewClient ctx cd.SocketsPath, .DoOnceStart ctx key]) ∧
      (∀ c ∈ (lockDoAction env cd [key]).exec.2.calls, c.ctx = ctx)) := by
  constructor
  · refine ⟨waitContext ca.LockWaitTimeout, by simp [waitContext],
      fun h => by simp [waitContext, h], ?_⟩
    rw [acquire_exec env ca key ha]
    cases hN : env.NewClient (waitContext ca.LockWaitTimeout) ca.SocketsPath with
    | error e => simp [Call.ctx]
    | ok client =>
      cases hL : client.Lock (waitContext ca.LockWaitTimeout) key <;> simp [hL, Call.ctx]
  · refine ⟨waitContext cd.LockWaitTimeout, by simp [waitContext],
      fun h => by simp [waitContext, h], ?_⟩
    rw [do_exec env cd key hd]
    cases hN : env.NewClient (waitContext cd.LockWaitTimeout) cd.SocketsPath with
    | error e => simp [Call.ctx]
    | ok client =>
      cases hL : client.DoOnceStart (waitContext cd.LockWaitTimeout) key <;> simp [hL, Call.ctx]

/-- C3 at concrete inputs: `lock acquire` without a wait timeout calls with a
context that has no deadline, and `lock do` with a timeout of 2s
(2000000000ns) calls with a context whose timeout is those 2s. -/
theorem lock_wait_deadline_witness :
    (exampleAcquireConfig "machine" 0).LockScope = "machine" ∧
    (exampleDoConfig "machine" 2000000000).LockScope = "machine" ∧
    (lockAcquireAction exampleEnv (exampleAcquireConfig "machine" 0) ["llama"]).exec.2.calls
      = [.NewClient { timeout := none } "/tmp/sockets", .Lock { timeout := none } "llama"] ∧
    (lockDoAction exampleEnv (exampleDoConfig "machine" 2000000000) ["llama"]).exec.2.calls
      = [.NewClient { timeout := some 2000000000 } "/tmp/sockets",
         .DoOnceStart { timeout := some 2000000000 } "llama"] := by
  obtain ⟨⟨ctxA, hA0, -, -, hAc, -⟩, ⟨ctxD, -, hD1, -, hDc, -⟩⟩ :=
    lock_wait_deadline exampleEnv (exampleAcquireConfig "machine" 0)
      (exampleDoConfig "machine" 2000000000) "llama" rfl rfl
  have eA : ctxA = { timeout := none } := by
    cases ctxA; simpa using hA0 rfl
  have eD : ctxD = { timeout := some 2000000000 } := by
    cases ctxD; simpa [exampleDoConfig] using hD1 (by decide)
  subst eA eD
  exact ⟨rfl, rfl, hAc exampleClient rfl, hDc exampleClient rfl⟩

/-- C4: for every key, once the client exists, `lockDoAction` writes exactly
one line when `client.DoOnceStart` succeeds, "do" and a newline if the client
returned true and "done" and a newline if it returned false; when
`DoOnceStart` returns an error nothing is written and the command dies with
`Fatal`. -/
theorem lock_do_writes_one_word (env : Env) (cfg : LockDoConfig) (key : String)
    (client : Client) (hscope : cfg.LockScope = "machine")
    (hclient : env.NewClient (waitContext cfg.LockWaitTimeout) cfg.SocketsPath = .ok client) :
    (client.DoOnceStart (waitContext cfg.LockWaitTimeout) key = .ok true →
        (lockDoAction env cfg [key]).exec.1 = .ok () ∧
        (lockDoAction env cfg [key]).exec.2.out = "do\n") ∧
    (client.DoOnceStart (waitContext cfg.LockWaitTimeout) key = .ok false →
        (lockDoAction env cfg [key]).exec.1 = .ok () ∧
        (lockDoAction env cfg [key]).exec.2.out = "done\n") ∧
    (∀ e, client.DoOnceStart (waitContext cfg.LockWaitTimeout) key = .error e →
        (lockDoAction env cfg [key]).exec.1 =
          .error (.fatal "Couldn't start do-once lock: %v\n" [e]) ∧
        (lockDoAction env cfg [key]).exec.2.out = "") := by
  rw [do_exec env cfg key hscope, hclient]
  cases hL : client.DoOnceStart (waitContext cfg.LockWaitTimeout) key with
  | error e => simp [hL]
  | ok doIt => cases doIt <;> simp [hL]

/-- C4 at concrete inputs: the work of `"llama"` is still to do, so `lock do
llama` prints `do`; the work of `"alpaca"` is done, so it prints `done`. -/
theorem lock_do_writes_one_word_witness :
    (exampleDoConfig "machine" 0).LockScope = "machine" ∧
    exampleEnv.NewClient (waitContext 0) "/tmp/sockets" = .ok exampleClient ∧
    (lockDoAction exampleEnv (exampleDoConfig "machine" 0) ["llama"]).exec.2.out = "do\n" ∧
    (lockDoAction exampleEnv (exampleDoConfig "machine" 0) ["alpaca"]).exec.2.out = "done\n" :=
  ⟨rfl, rfl,
    ((lock_do_writes_one_word exampleEnv (exampleDoConfig "machine" 0) "llama"
      exampleClient rfl rfl).1 rfl).2,
    ((lock_do_writes_one_word exampleEnv (exampleDoConfig "machine" 0) "alpaca"
      exampleClient rfl rfl).2.1 rfl).2⟩

/-- C5: for every key and token, once the client exists, `lockReleaseAction`
returns nil (exit 0) and writes nothing to the app writer exactly when
`client.Unlock(key, token)` returns no error; when `Unlock` returns an error
(a token mismatch, say) the command dies with `Fatal` and a nonzero status. -/
theorem lock_release_status (env : Env) (cfg : LockReleaseConfig) (key token : String)
    (client : Client) (hscope : cfg.LockScope = "machine")
    (hclient : env.NewClient Context.Background cfg.SocketsPath = .ok client) :
    (client.Unlock Context.Background key token = .ok () →
        (lockReleaseAction env cfg [key, token]).exec.1 = .ok () ∧
        (lockReleaseAction env cfg [key, token]).exec.2.out = "" ∧
        exitStatus (lockReleaseAction env cfg [key, token]).exec.1 = 0) ∧
    (∀ e, client.Unlock Context.Background key token = .error e →
        (lockReleaseAction env cfg [key, token]).exec.1 =
          .error (.fatal "Could not release lock: %v" [e]) ∧
        exitStatus (lockReleaseAction env cfg [key, token]).exec.1 ≠ 0) ∧
    (((lockReleaseAction env cfg [key, token]).exec.1 = .ok () ∧
        (lockReleaseAction env cfg [key, token]).exec.2.out = "") ↔
      client.Unlock Context.Background key token = .ok ()) := by
  rw [release_exec env cfg key token hscope, hclient]
  cases hL : client.Unlock Context.Background key token with
  | error e => simp [hL, exitStatus]
  | ok u => simp [hL, exitStatus]

/-- C5 at concrete inputs: releasing `"llama"` with the token it was acquired
with returns nil, releasing it with `"zzz"` is fatal. -/
theorem lock_release_status_witness :
    (exampleReleaseConfig "machine").LockScope = "machine" ∧
    exampleEnv.NewClient Context.Background "/tmp/sockets" = .ok exampleClient ∧
    (lockReleaseAction exampleEnv (exampleReleaseConfig "machine") ["llama", "abc123"]).exec.1
      = .ok () ∧
    (lockReleaseAction exampleEnv (exampleReleaseConfig "machine") ["llama", "zzz"]).exec.1
      = .error (.fatal "Could not release lock: %v" ["token mismatch"]) :=
  ⟨rfl, rfl,
    ((lock_release_status exampleEnv (exampleReleaseConfig "machine") "llama" "abc123"
      exampleClient rfl rfl).1 rfl).1,
    ((lock_release_status exampleEnv (exampleReleaseConfig "machine") "llama" "zzz"
      exampleClient rfl rfl).2.1 "token mismatch" rfl).1⟩

/-- C6: for every key, when `client.Get` succeeds with value `v`,
`lockGetAction` writes exactly `v` followed by one newline to the app writer
and returns nil; for a key not in use (`v` empty) the output is a single empty
line and the exit status is still 0. -/
theorem lock_get_writes_value (env : Env) (cfg : LockGetConfig) (key v : String)
    (client : Client) (hscope : cfg.LockScope = "machine")
    (hclient : env.NewClient Context.Background cfg.SocketsPath = .ok client)
    (hget : client.Get Context.Background key = .ok v) :
    (lockGetAction env cfg [key]).exec.1 = .ok () ∧
    (lockGetAction env cfg [key]).exec.2.out = v ++ "\n" ∧
    exitStatus (lockGetAction env cfg [key]).exec.1 = 0 ∧
    (v = "" → (lockGetAction env cfg [key]).exec.2.out = "\n") := by
  rw [get_exec env cfg key hscope, hclient]
  simp only [hget, exitStatus]
  refine ⟨trivial, trivial, trivial, ?_⟩
  rintro rfl
  rfl

/-- C6 at a concrete input: `"llama"` is not in use, and `lock get llama`
prints one empty line and returns nil. -/
theorem lock_get_writes_value_witness :
    (exampleGetConfig "machine").LockScope = "machine" ∧
    exampleEnv.NewClient Context.Background "/tmp/sockets" = .ok exampleClient ∧
    exampleClient.Get Context.Background "llama" = .ok "" ∧
    (lockGetAction exampleEnv (exampleGetConfig "machine") ["llama"]).exec.1 = .ok () ∧
    (lockGetAction exampleEnv (exampleGetConfig "machine") ["llama"]).exec.2.out = "\n" :=
  have h := lock_get_writes_value exampleEnv (exampleGetConfig "machine") "llama" ""
    exampleClient rfl rfl rfl
  ⟨rfl, rfl, rfl, h.1, h.2.2.2 rfl⟩

/-! ## The registry map -/

theorem lookup_upsert_self {β : Type} (key : String) (v : β) (l : List (String × β)) :
    (upsert key v l).lookup key = some v := by
  induction l with
  | nil => simp [upsert, List.lookup]
  | cons p rest ih =>
    obtain ⟨k, w⟩ := p
    by_cases h : k = key
    · simp [upsert, h, List.lookup]
    · have h' : (key == k) = false := by simpa using fun e => h e.symm
      simp [upsert, h, List.lookup, h', ih]

theorem lookup_upsert_ne {β : Type} (key key' : String) (v : β) (l : List (String × β))
    (hne : key' ≠ key) : (upsert key v l).lookup key' = l.lookup key' := by
  induction l with
  | nil =>
    have h' : (key' == key) = false := by simpa using hne
    simp [upsert, List.lookup, h']
  | cons p rest ih =>
    obtain ⟨k, w⟩ := p
    by_cases h : k = key
    · subst h
      have h' : (key' == k) = false := by simpa using hne
      simp [upsert, List.lookup, h']
    · simp only [upsert, h, if_false, List.lookup, ih]

theorem lockEntry_setLock_self (r : Registry) (key : String) (e : LockEntry) :
    (r.setLock key e).lockEntry key = e := by
  simp [Registry.lockEntry, Registry.setLock, lookup_upsert_self]

theorem lockEntry_setLock_ne (r : Registry) (key key' : String) (e : LockEntry)
    (hne : key' ≠ key) : (r.setLock key e).lockEntry key' = r.lockEntry key' := by
  simp [Registry.lockEntry, Registry.setLock, lookup_upsert_ne _ _ _ _ hne]

theorem barrier_setLock (r : Registry) (key key' : String) (e : LockEntry) :
    (r.setLock key e).barrier key' = r.barrier key' := rfl

theorem barrier_setBarrier_self (r : Registry) (key : String) (s : BarrierState) :
    (r.setBarrier key s).barrier key = s := by
  simp [Registry.barrier, Registry.setBarrier, lookup_upsert_self]

theorem barrier_setBarrier_ne (r : Registry) (key key' : String) (s : BarrierState)
    (hne : key' ≠ key) : (r.setBarrier key s).barrier key' = r.barrier key' := by
  simp [Registry.barrier, Registry.setBarrier, lookup_upsert_ne _ _ _ _ hne]

/-! ## Locks: release safety and exclusivity -/

theorem release_wrong_token (r : Registry) (key token : String)
    (h : token ≠ (r.lockEntry key).token) : r.Release key token = (false, r) := by
  simp [Registry.Release, h]

theorem release_unheld (r : Registry) (key token : String)
    (h : (r.lockEntry key).held = false) : r.Release key token = (false, r) := by
  simp [Registry.Release, h]

theorem tokensCleared_empty : Registry.empty.TokensCleared := by
  intro key _
  rfl

theorem lockEntry_step_ne (r : Registry) (op : Op) (key : String)
    (h : ∀ k x, op ≠ .Acquire k x ∨ k ≠ key) (h' : ∀ k x, op ≠ .Release k x ∨ k ≠ key) :
    (r.step op).2.lockEntry key = r.lockEntry key := by
  cases op with
  | Acquire k fresh =>
    have hk : key ≠ k := fun e => by
      rcases h k fresh with h1 | h1
      · exact h1 rfl
      · exact h1 e.symm
    by_cases hh : (r.lockEntry k).held = false
    · simp [Registry.step, Registry.Acquire, hh, lockEntry_setLock_ne _ _ _ _ hk]
    · simp [Registry.step, Registry.Acquire, hh]
  | Release k token =>
    have hk : key ≠ k := fun e => by
      rcases h' k token with h1 | h1
      · exact h1 rfl
      · exact h1 e.symm
    by_cases hh : (r.lockEntry k).held = true ∧ token = (r.lockEntry k).token
    · simp only [Registry.step, Registry.Release, hh, and_self, if_true]
      exact lockEntry_setLock_ne _ _ _ _ hk
    · simp only [Registry.step, Registry.Release, hh, if_false]
  | Get k => rfl
  | DoOnceStart k =>
    simp only [Registry.step, Registry.DoOnceStart]
    cases r.barrier k <;> rfl
  | DoOnceFinish k =>
    simp only [Registry.step, Registry.DoOnceFinish]
    cases r.barrier k <;> rfl

theorem tokensCleared_step (r : Registry) (op : Op) (h : r.TokensCleared) :
    (r.step op).2.TokensCleared := by
  intro key
  cases op with
  | Acquire k fresh =>
    by_cases hh : (r.lockEntry k).held = false
    · by_cases hk : key = k
      · subst hk
        simp [Registry.step, Registry.Acquire, hh, lockEntry_setLock_self]
      · simpa [Registry.step, Registry.Acquire, hh, lockEntry_setLock_ne _ _ _ _ hk] using h key
    · simpa [Registry.step, Registry.Acquire, hh] using h key
  | Release k token =>
    by_cases hh : (r.lockEntry k).held = true ∧ token = (r.lockEntry k).token
    · simp only [Registry.step, Registry.Release, hh, and_self, if_true]
      by_cases hk : key = k
      · subst hk
        simp [lockEntry_setLock_self]
      · rw [lockEntry_setLock_ne _ _ _ _ hk]
        exact h key
    · simp only [Registry.step, Registry.Release, hh, if_false]
      exact h key
  | Get k => exact h key
  | DoOnceStart k =>
    rw [lockEntry_step_ne r _ key (by simp) (by simp)]
    exact h key
  | DoOnceFinish k =>
    rw [lockEntry_step_ne r _ key (by simp) (by simp)]
    exact h key

theorem tokensCleared_run (ops : List Op) (r : Registry) (h : r.TokensCleared) :
    (r.run ops).TokensCleared := by
  induction ops generalizing r with
  | nil => exact h
  | cons op ops ih => exact ih _ (tokensCleared_step r op h)

theorem holders_step (r : Registry) (op : Op) (key : String) :
    (if isGrant key (op, (r.step op).1) then 1 else 0) + r.holders key =
      (if isRelease key (op, (r.step op).1) then 1 else 0) + (r.step op).2.holders key := by
  cases op with
  | Acquire k fresh =>
    by_cases hh : (r.lockEntry k).held = false
    · by_cases hk : k = key
      · subst hk
        simp [Registry.step, Registry.Acquire, hh, isGrant, isRelease, Registry.holders,
          lockEntry_setLock_self]
      · have hk' : key ≠ k := fun e => hk e.symm
        simp [Registry.step, Registry.Acquire, hh, isGrant, isRelease, Registry.holders,
          lockEntry_setLock_ne _ _ _ _ hk', hk]
    · simp [Registry.step, Registry.Acquire, hh, isGrant, isRelease]
  | Release k token =>
    by_cases hh : (r.lockEntry k).held = true ∧ token = (r.lockEntry k).token
    · by_cases hk : k = key
      · subst hk
        simp [Registry.step, Registry.Release, hh, isGrant, isRelease, Registry.holders,
          lockEntry_setLock_self, hh.1]
      · have hk' : key ≠ k := fun e => hk e.symm
        simp [Registry.step, Registry.Release, hh, isGrant, isRelease, Registry.holders,
          lockEntry_setLock_ne _ _ _ _ hk', hk]
    · simp [Registry.step, Registry.Release, hh, isGrant, isRelease]
  | Get k => simp [Registry.step, isGrant, isRelease]
  | DoOnceStart k =>
    have e := lockEntry_step_ne r (.DoOnceStart k) key (by simp) (by simp)
    simp only [Registry.holders, e]
    simp only [Registry.step, Registry.DoOnceStart]
    cases r.barrier k <;> simp [isGrant, isRelease]
  | DoOnceFinish k =>
    have e := lockEntry_step_ne r (.DoOnceFinish k) key (by simp) (by simp)
    simp only [Registry.holders, e]
    simp [Registry.step, isGrant, isRelease]

theorem holders_run (ops : List Op) (r : Registry) (key : String) :
    (r.trace ops).countP (isGrant key) + r.holders key =
      (r.trace ops).countP (isRelease key) + (r.run ops).holders key := by
  induction ops generalizing r with
  | nil => simp [Registry.trace, Registry.run]
  | cons op ops ih =>
    have h1 := holders_step r op key
    have h2 := ih (r.step op).2
    simp only [Registry.trace, Registry.run, List.countP_cons]
    omega

/-- C7, release safety: for every key `k` held with stored token `s` and every
supplied token `t` other than `s`, `Release(k, t)` reports failure and leaves
the registry unchanged, so `k` is still held, its token is still `s` and
`Get(k)` still returns `s`; `Release` on a key that is not held fails too and
mutates nothing. -/
theorem release_safety (r : Registry) (k s t : String) :
    ((r.lockEntry k).held = true → (r.lockEntry k).token = s → t ≠ s →
        r.Release k t = (false, r) ∧
        ((r.Release k t).2.lockEntry k).held = true ∧
        ((r.Release k t).2.lockEntry k).token = s ∧
        (r.Release k t).2.Get k = s) ∧
    ((r.lockEntry k).held = false → r.Release k t = (false, r)) := by
  constructor
  · intro hh hs hne
    have e := release_wrong_token r k t (by rw [hs]; exact hne)
    rw [e]
    exact ⟨rfl, hh, hs, hs⟩
  · exact release_unheld r k t

/-- C7 at concrete inputs: while `"llama"` is held with `"abc123"`, a release
with `"zzz"` fails and `Get` still returns `"abc123"`; a release of the key
`"alpaca"`, which nobody holds, fails as well. -/
theorem release_safety_witness :
    ((Registry.empty.run [.Acquire "llama" "abc123"]).lockEntry "llama").held = true ∧
    ((Registry.empty.run [.Acquire "llama" "abc123"]).lockEntry "llama").token = "abc123" ∧
    "zzz" ≠ "abc123" ∧
    ((Registry.empty.run [.Acquire "llama" "abc123"]).lockEntry "alpaca").held = false ∧
    ((Registry.empty.run [.Acquire "llama" "abc123"]).Release "llama" "zzz").1 = false ∧
    ((Registry.empty.run [.Acquire "llama" "abc123"]).Release "llama" "zzz").2.Get "llama"
      = "abc123" ∧
    ((Registry.empty.run [.Acquire "llama" "abc123"]).Release "alpaca" "zzz").1 = false :=
  have held :=
    (release_safety (Registry.empty.run [.Acquire "llama" "abc123"]) "llama" "abc123" "zzz").1
      (by decide) (by decide) (by decide)
  have free :=
    (release_safety (Registry.empty.run [.Acquire "llama" "abc123"]) "alpaca" "" "zzz").2
      (by decide)
  ⟨by decide, by decide, by decide, by decide, congrArg Prod.fst held.1, held.2.2.2,
    congrArg Prod.fst free⟩

/-- C9, exclusivity: in every state reached from the empty registry by a
sequence of operations (any interleaving of `Acquire` and `Release`, and of
the other operations too), each key has at most one valid token: the grants
of the key exceed its successful releases by one if it is held and by nothing
otherwise, and two tokens that would both release it are equal. An `Acquire`
on a held key returns no token and changes nothing, and a key that is not held
has the empty token. -/
theorem exclusivity (ops : List Op) (k : String) :
    ((Registry.empty.trace ops).countP (isGrant k) =
        (Registry.empty.trace ops).countP (isRelease k) +
          (if ((Registry.empty.run ops).lockEntry k).held then 1 else 0)) ∧
    (∀ t₁ t₂, ((Registry.empty.run ops).Release k t₁).1 = true →
        ((Registry.empty.run ops).Release k t₂).1 = true → t₁ = t₂) ∧
    (((Registry.empty.run ops).lockEntry k).held = true →
        ∀ fresh, (Registry.empty.run ops).Acquire k fresh = (none, Registry.empty.run ops)) ∧
    (((Registry.empty.run ops).lockEntry k).held = false →
        ((Registry.empty.run ops).lockEntry k).token = "" ∧
        (Registry.empty.run ops).Get k = "") := by
  refine ⟨?_, ?_, ?_, ?_⟩
  · have h := holders_run ops Registry.empty k
    have h0 : Registry.empty.holders k = 0 := rfl
    rw [h0] at h
    simpa [Registry.holders] using h
  · intro t₁ t₂ h₁ h₂
    generalize Registry.empty.run ops = r at h₁ h₂
    by_cases e₁ : (r.lockEntry k).held = true ∧ t₁ = (r.lockEntry k).token
    · by_cases e₂ : (r.lockEntry k).held = true ∧ t₂ = (r.lockEntry k).token
      · rw [e₁.2, e₂.2]
      · simp [Registry.Release, e₂] at h₂
    · simp [Registry.Release, e₁] at h₁
  · intro hh fresh
    simp [Registry.Acquire, hh]
  · intro hh
    have h := tokensCleared_run ops Registry.empty tokensCleared_empty k hh
    exact ⟨h, h⟩

/-- C9 at a concrete input: after `"llama"` was acquired, a second acquire
is suspended; after the release nobody holds it and its token is empty. -/
theorem exclusivity_witness :
    ((Registry.empty.run [.Acquire "llama" "abc123"]).lockEntry "llama").held = true ∧
    (Registry.empty.run [.Acquire "llama" "abc123"]).Acquire "llama" "def456"
      = (none, Registry.empty.run [.Acquire "llama" "abc123"]) ∧
    ((Registry.empty.run [.Acquire "llama" "abc123", .Release "llama" "abc123"]).lockEntry
      "llama").held = false ∧
    (Registry.empty.run [.Acquire "llama" "abc123", .Release "llama" "abc123"]).Get "llama"
      = "" :=
  ⟨by decide,
    (exclusivity [.Acquire "llama" "abc123"] "llama").2.2.1 (by decide) "def456",
    by decide,
    ((exclusivity [.Acquire "llama" "abc123", .Release "llama" "abc123"] "llama").2.2.2
      (by decide)).2⟩

/-! ## Barriers: monotonicity -/

theorem barrier_step (r : Registry) (op : Op) (k : String) :
    (r.barrier k).rank ≤ ((r.step op).2.barrier k).rank ∧
    ((r.step op).2.barrier k).rank ≤ (r.barrier k).rank + 1 := by
  cases op with
  | Acquire key fresh =>
    by_cases hh : (r.lockEntry key).held = false
    · simp [Registry.step, Registry.Acquire, hh, barrier_setLock]
    · simp [Registry.step, Registry.Acquire, hh]
  | Release key token =>
    by_cases hh : (r.lockEntry key).held = true ∧ token = (r.lockEntry key).token
    · simp [Registry.step, Registry.Release, hh, barrier_setLock]
    · simp [Registry.step, Registry.Release, hh]
  | Get key => simp [Registry.step]
  | DoOnceStart key =>
    by_cases hk : k = key
    · subst hk
      cases hb : r.barrier k <;>
        simp [Registry.step, Registry.DoOnceStart, hb, barrier_setBarrier_self,
          BarrierState.rank]
    · cases hb : r.barrier key <;>
        simp [Registry.step, Registry.DoOnceStart, hb, barrier_setBarrier_ne _ _ _ _ hk]
  | DoOnceFinish key =>
    by_cases hk : k = key
    · subst hk
      cases hb : r.barrier k <;>
        simp [Registry.step, Registry.DoOnceFinish, hb, barrier_setBarrier_self,
          BarrierState.rank]
    · cases hb : r.barrier key <;>
        simp [Registry.step, Registry.DoOnceFinish, hb, barrier_setBarrier_ne _ _ _ _ hk]

theorem barrier_run (ops : List Op) (r : Registry) (k : String) :
    (r.barrier k).rank ≤ ((r.run ops).barrier k).rank := by
  induction ops generalizing r with
  | nil => exact Nat.le_refl _
  | cons op ops ih => exact Nat.le_trans (barrier_step r op k).1 (ih _)

theorem done_of_rank {s : BarrierState} (h : 2 ≤ s.rank) : s = .Done := by
  cases s <;> simp [BarrierState.rank] at h ⊢

/-- C10, barrier monotonicity: for every key, under every sequence of
operations (of `DoOnceStart` and `DoOnceFinish`, and of the lock operations
too) the barrier state only moves forward along NotStarted, InProgress, Done:
one operation leaves it where it is or moves it one place forward, a sequence
never brings it to an earlier state, and once a key is `Done` it stays `Done`
and every later `DoOnceStart` on it answers "done" without suspending. -/
theorem barrier_monotone (r : Registry) (ops : List Op) (k : String) :
    (∀ op, (r.barrier k).rank ≤ ((r.step op).2.barrier k).rank ∧
        ((r.step op).2.barrier k).rank ≤ (r.barrier k).rank + 1) ∧
    (r.barrier k).rank ≤ ((r.run ops).barrier k).rank ∧
    (r.barrier k = .Done →
        (r.run ops).barrier k = .Done ∧
        (r.run ops).DoOnceStart k = (some "done", r.run ops)) := by
  refine ⟨fun op => barrier_step r op k, barrier_run ops r k, ?_⟩
  intro hd
  have h := barrier_run ops r k
  rw [hd] at h
  have hd' : (r.run ops).barrier k = .Done := done_of_rank h
  exact ⟨hd', by simp [Registry.DoOnceStart, hd']⟩

/-- C10 at a concrete input: `"llama"` is `Done` after a start and a finish;
after a further finish, a start and an acquire it is still `Done`, and
`DoOnceStart` answers "done". -/
theorem barrier_monotone_witness :
    (Registry.empty.run [.DoOnceStart "llama", .DoOnceFinish "llama"]).barrier "llama"
      = .Done ∧
    ((Registry.empty.run [.DoOnceStart "llama", .DoOnceFinish "llama"]).run
      [.DoOnceFinish "llama", .DoOnceStart "llama", .Acquire "llama" "abc123"]).barrier "llama"
      = .Done ∧
    (((Registry.empty.run [.DoOnceStart "llama", .DoOnceFinish "llama"]).run
      [.DoOnceFinish "llama", .DoOnceStart "llama", .Acquire "llama" "abc123"]).DoOnceStart
      "llama").1 = some "done" :=
  have h := (barrier_monotone (Registry.empty.run [.DoOnceStart "llama", .DoOnceFinish "llama"])
    [.DoOnceFinish "llama", .DoOnceStart "llama", .Acquire "llama" "abc123"] "llama").2.2
    (by decide)
  ⟨by decide, h.1, congrArg Prod.fst h.2⟩

/-! ## Do-once: exactly one caller does the work -/

theorem finishLogged_snoc {key : String} {log : List Output} (o : Output)
    (h : FinishLogged key log) : FinishLogged key (log ++ [o]) := by
  obtain ⟨c, hc⟩ := h
  exact ⟨c, List.mem_append_left _ hc⟩

theorem doneAfterFinish_snoc {key : String} {log : List Output} {o : Output}
    (h : DoneAfterFinish key log)
    (ho : ∀ c, o = Output.reply c key "done" → FinishLogged key log) :
    DoneAfterFinish key (log ++ [o]) := by
  intro pre post c e
  rcases List.eq_nil_or_concat post with rfl | ⟨post', x, rfl⟩
  · have h2 := List.append_inj' e (by simp)
    obtain ⟨h3, h4⟩ := h2
    subst h3
    exact ho c (by simpa using h4)
  · have e' : log ++ [o] = (pre ++ Output.reply c key "done" :: post') ++ [x] := by
      rw [e]; simp
    have h2 := List.append_inj' e' (by simp)
    exact h pre post' c h2.1

theorem replies_snoc_reply (key word : String) (log : List Output) (c : Nat)
    (k w : String) :
    replies key word (log ++ [.reply c k w]) =
      replies key word log + (if k = key ∧ w = word then 1 else 0) := by
  by_cases h : k = key ∧ w = word
  · simp [replies, List.countP_append, h]
  · have h' : (k == key && w == word) = false := by
      simpa using fun e => (not_and.mp h) e
    simp [replies, List.countP_append, h, h']

theorem replies_snoc_finish (key word : String) (log : List Output) (c : Nat)
    (k : String) (b : Bool) :
    replies key word (log ++ [.finish c k b]) = replies key word log := by
  simp [replies, List.countP_append]

theorem parkedOn_snoc (key : String) (parked : List (Nat × String)) (c : Nat) (k : String) :
    parkedOn key (parked ++ [(c, k)]) = parkedOn key parked + (if k = key then 1 else 0) := by
  by_cases h : k = key
  · simp [parkedOn, List.countP_append, h]
  · simp [parkedOn, List.countP_append, h]

theorem inv_call_other (key : String) (n : Nat) (l : Leader) (c : Nat) (k : String)
    (hk : k ≠ key) (h : l.Inv key n) : (l.call c k).Inv key n := by
  have hk' : key ≠ k := fun e => hk e.symm
  obtain ⟨hd, h0, h1, h2⟩ := h
  cases hb : l.reg.barrier k with
  | NotStarted =>
    simp only [Leader.call, Registry.DoOnceStart, hb, Leader.Inv,
      barrier_setBarrier_ne _ _ _ _ hk', replies_snoc_reply, hk, false_and, if_false,
      Nat.add_zero]
    refine ⟨doneAfterFinish_snoc hd ?_, h0, h1, ?_⟩
    · intro c' e; simp at e
    · intro hD
      obtain ⟨a, b, c', d⟩ := h2 hD
      exact ⟨a, b, c', finishLogged_snoc _ d⟩
  | InProgress =>
    simp only [Leader.call, Registry.DoOnceStart, hb, Leader.Inv, parkedOn_snoc, hk,
      if_false, Nat.add_zero]
    exact ⟨hd, h0, h1, h2⟩
  | Done =>
    simp only [Leader.call, Registry.DoOnceStart, hb, Leader.Inv,
      replies_snoc_reply, hk, false_and, if_false, Nat.add_zero]
    refine ⟨doneAfterFinish_snoc hd ?_, h0, h1, ?_⟩
    · intro c' e
      simp at e
      exact absurd e.2 hk
    · intro hD
      obtain ⟨a, b, c', d⟩ := h2 hD
      exact ⟨a, b, c', finishLogged_snoc _ d⟩

theorem inv_call_same (key : String) (n : Nat) (l : Leader) (c : Nat)
    (h : l.Inv key n) : (l.call c key).Inv key (n + 1) := by
  obtain ⟨hd, h0, h1, h2⟩ := h
  cases hb : l.reg.barrier key with
  | NotStarted =>
    obtain ⟨a0, a1, a2, a3⟩ := h0 hb
    simp only [Leader.call, Registry.DoOnceStart, hb, Leader.Inv,
      barrier_setBarrier_self, replies_snoc_reply]
    refine ⟨doneAfterFinish_snoc hd ?_, ?_, ?_, ?_⟩
    · intro c' e; simp at e
    · intro e; cases e
    · intro _
      simp [a0, a1, a2, a3]
    · intro e; cases e
  | InProgress =>
    obtain ⟨a1, a2, a3⟩ := h1 hb
    simp only [Leader.call, Registry.DoOnceStart, hb, Leader.Inv, parkedOn_snoc]
    refine ⟨hd, ?_, ?_, ?_⟩
    · intro e; cases e
    · intro _
      simp [a1, a2, a3]
    · intro e; cases e
  | Done =>
    obtain ⟨a1, a2, a3, a4⟩ := h2 hb
    simp only [Leader.call, Registry.DoOnceStart, hb, Leader.Inv, replies_snoc_reply]
    refine ⟨doneAfterFinish_snoc hd (fun _ _ => a4), ?_, ?_, ?_⟩
    · intro e; cases e
    · intro e; cases e
    · intro _
      simp [a1, a2, a3, finishLogged_snoc _ a4]

theorem inv_wake_other (key : String) (n : Nat) (ws : List (Nat × String)) (l : Leader)
    (hws : ∀ w ∈ ws, w.2 ≠ key) (h : l.Inv key n) :
    (ws.foldl (fun l w => l.call w.1 w.2) l).Inv key n := by
  induction ws generalizing l with
  | nil => exact h
  | cons w ws ih =>
    simp only [List.foldl_cons]
    exact ih _ (fun w' hw' => hws w' (List.mem_cons_of_mem _ hw'))
      (inv_call_other key n l w.1 w.2 (hws w (List.mem_cons_self _ _)) h)

theorem inv_wake_same (key : String) (ws : List (Nat × String)) (n : Nat) (l : Leader)
    (hws : ∀ w ∈ ws, w.2 = key) (h : l.Inv key n) :
    (ws.foldl (fun l w => l.call w.1 w.2) l).Inv key (n + ws.length) := by
  induction ws generalizing l n with
  | nil => exact h
  | cons w ws ih =>
    simp only [List.foldl_cons, List.length_cons]
    have hw := hws w (List.mem_cons_self _ _)
    have h' : (l.call w.1 w.2).Inv key (n + 1) := by
      rw [hw]
      exact inv_call_same key n l w.1 h
    have := ih (n + 1) _ (fun w' hw' => hws w' (List.mem_cons_of_mem _ hw')) h'
    rw [show n + (ws.length + 1) = n + 1 + ws.length by omega]
    exact this

theorem parkedOn_filter_ne_same (key : String) (parked : List (Nat × String)) :
    parkedOn key (parked.filter fun w => w.2 ≠ key) = 0 := by
  simp [parkedOn, List.countP_filter]

theorem parkedOn_filter_ne_other (key k : String) (parked : List (Nat × String))
    (hk : k ≠ key) :
    parkedOn key (parked.filter fun w => w.2 ≠ k) = parkedOn key parked := by
  simp only [parkedOn, List.countP_filter]
  congr 1
  funext w
  by_cases h : w.2 = key
  · have hne : ¬key = k := fun e => hk e.symm
    simp [h, hne]
  · simp [h]

theorem length_filter_eq_parkedOn (key : String) (parked : List (Nat × String)) :
    (parked.filter fun w => w.2 = key).length = parkedOn key parked := by
  rw [parkedOn, List.countP_eq_length_filter]
  congr 2

theorem inv_finish (key : String) (n : Nat) (l : Leader) (c : Nat) (k : String)
    (h : l.Inv key n) : (l.step (.finish c k)).Inv key n := by
  obtain ⟨hd, h0, h1, h2⟩ := h
  have hsnoc : ∀ b, DoneAfterFinish key (l.log ++ [.finish c k b]) := fun b =>
    doneAfterFinish_snoc hd (fun c' e => by simp at e)
  cases hb : l.reg.barrier k with
  | NotStarted =>
    simp only [Leader.step, Registry.DoOnceFinish, hb, Leader.Inv, replies_snoc_finish]
    exact ⟨hsnoc false, h0, h1, fun hD =>
      ⟨(h2 hD).1, (h2 hD).2.1, (h2 hD).2.2.1, finishLogged_snoc _ (h2 hD).2.2.2⟩⟩
  | Done =>
    simp only [Leader.step, Registry.DoOnceFinish, hb, Leader.Inv, replies_snoc_finish]
    exact ⟨hsnoc false, h0, h1, fun hD =>
      ⟨(h2 hD).1, (h2 hD).2.1, (h2 hD).2.2.1, finishLogged_snoc _ (h2 hD).2.2.2⟩⟩
  | InProgress =>
    simp only [Leader.step, Registry.DoOnceFinish, hb]
    by_cases hk : k = key
    · subst hk
      obtain ⟨a1, a2, a3⟩ := h1 hb
      have base : Leader.Inv k 1
          { reg := l.reg.setBarrier k .Done
            parked := l.parked.filter fun w => w.2 ≠ k
            log := l.log ++ [.finish c k true] } := by
        simp only [Leader.Inv, barrier_setBarrier_self, replies_snoc_finish,
          parkedOn_filter_ne_same]
        refine ⟨hsnoc true, ?_, ?_, ?_⟩
        · intro e; cases e
        · intro e; cases e
        · intro _
          exact ⟨a1, by simp [a2], trivial, c, by simp⟩
      have woken := inv_wake_same k (l.parked.filter fun w => w.2 = k) 1 _
        (fun w hw => by simpa using (List.mem_filter.mp hw).2) base
      rw [length_filter_eq_parkedOn] at woken
      have e : 1 + parkedOn k l.parked = n := by omega
      rw [e] at woken
      exact woken
    · have hk' : key ≠ k := fun e => hk e.symm
      have base : Leader.Inv key n
          { reg := l.reg.setBarrier k .Done
            parked := l.parked.filter fun w => w.2 ≠ k
            log := l.log ++ [.finish c k true] } := by
        simp only [Leader.Inv, barrier_setBarrier_ne _ _ _ _ hk', replies_snoc_finish,
          parkedOn_filter_ne_other key k l.parked hk]
        exact ⟨hsnoc true, h0, h1, fun hD =>
          ⟨(h2 hD).1, (h2 hD).2.1, (h2 hD).2.2.1, finishLogged_snoc _ (h2 hD).2.2.2⟩⟩
      exact inv_wake_other key n (l.parked.filter fun w => w.2 = k) _
        (fun w hw => by
          have := (List.mem_filter.mp hw).2
          simp at this
          rw [this]; exact hk) base

theorem inv_step (key : String) (n : Nat) (l : Leader) (e : Event) (h : l.Inv key n) :
    (l.step e).Inv key (n + startCalls key [e]) := by
  cases e with
  | start c k =>
    by_cases hk : k = key
    · subst hk
      simpa [startCalls, Leader.step] using inv_call_same k n l c h
    · simpa [startCalls, Leader.step, hk] using inv_call_other key n l c k hk h
  | finish c k =>
    simpa [startCalls] using inv_finish key n l c k h

theorem startCalls_cons (key : String) (e : Event) (evs : List Event) :
    startCalls key (e :: evs) = startCalls key [e] + startCalls key evs := by
  simp only [startCalls, List.countP_cons, List.countP_nil]
  omega

theorem inv_run (key : String) (evs : List Event) (n : Nat) (l : Leader)
    (h : l.Inv key n) : (l.run evs).Inv key (n + startCalls key evs) := by
  induction evs generalizing l n with
  | nil => simpa [startCalls, Leader.run] using h
  | cons e evs ih =>
    rw [startCalls_cons, ← Nat.add_assoc]
    exact ih _ _ (inv_step key n l e h)

theorem inv_init (key : String) : Leader.init.Inv key 0 := by
  refine ⟨?_, ?_, ?_, ?_⟩
  · intro pre post c e
    simp [Leader.init] at e
  · intro _
    exact ⟨rfl, rfl, rfl, rfl⟩
  · intro e
    simp [Leader.init, Registry.empty, Registry.barrier] at e
  · intro e
    simp [Leader.init, Registry.empty, Registry.barrier] at e

theorem finishLogged_snoc_reply {key : String} {log : List Output} (c : Nat) (k w : String)
    (h : FinishLogged key (log ++ [.reply c k w])) : FinishLogged key log := by
  obtain ⟨c', hc⟩ := h
  rcases List.mem_append.mp hc with hc | hc
  · exact ⟨c', hc⟩
  · simp at hc

theorem finishLogged_snoc_finish {key : String} {log : List Output} (c : Nat) (k : String)
    (b : Bool) (h : FinishLogged key (log ++ [.finish c k b])) :
    FinishLogged key log ∨ (k = key ∧ b = true) := by
  obtain ⟨c', hc⟩ := h
  rcases List.mem_append.mp hc with hc | hc
  · exact Or.inl ⟨c', hc⟩
  · simp at hc
    exact Or.inr ⟨hc.2.1.symm, hc.2.2⟩

theorem finishMeansDone_call (key : String) (l : Leader) (c : Nat) (k : String)
    (h : l.FinishMeansDone key) : (l.call c k).FinishMeansDone key := by
  cases hb : l.reg.barrier k with
  | NotStarted =>
    simp only [Leader.FinishMeansDone, Leader.call, Registry.DoOnceStart, hb]
    intro hfl
    have hdone := h (finishLogged_snoc_reply c k "do" hfl)
    have hne : key ≠ k := fun e => by rw [e, hb] at hdone; cases hdone
    rw [barrier_setBarrier_ne _ _ _ _ hne]
    exact hdone
  | InProgress =>
    simp only [Leader.FinishMeansDone, Leader.call, Registry.DoOnceStart, hb]
    exact h
  | Done =>
    simp only [Leader.FinishMeansDone, Leader.call, Registry.DoOnceStart, hb]
    intro hfl
    exact h (finishLogged_snoc_reply c k "done" hfl)

theorem finishMeansDone_wake (key : String) (ws : List (Nat × String)) (l : Leader)
    (h : l.FinishMeansDone key) :
    (ws.foldl (fun l w => l.call w.1 w.2) l).FinishMeansDone key := by
  induction ws generalizing l with
  | nil => exact h
  | cons w ws ih =>
    simp only [List.foldl_cons]
    exact ih _ (finishMeansDone_call key l w.1 w.2 h)

theorem finishMeansDone_step (key : String) (l : Leader) (e : Event)
    (h : l.FinishMeansDone key) : (l.step e).FinishMeansDone key := by
  cases e with
  | start c k => exact finishMeansDone_call key l c k h
  | finish c k =>
    cases hb : l.reg.barrier k with
    | NotStarted =>
      simp only [Leader.step, Registry.DoOnceFinish, hb, Leader.FinishMeansDone]
      intro hfl
      rcases finishLogged_snoc_finish c k false hfl with hold | ⟨_, hfalse⟩
      · exact h hold
      · cases hfalse
    | Done =>
      simp only [Leader.step, Registry.DoOnceFinish, hb, Leader.FinishMeansDone]
      intro hfl
      rcases finishLogged_snoc_finish c k false hfl with hold | ⟨_, hfalse⟩
      · exact h hold
      · cases hfalse
    | InProgress =>
      simp only [Leader.step, Registry.DoOnceFinish, hb]
      apply finishMeansDone_wake
      simp only [Leader.FinishMeansDone]
      intro hfl
      by_cases hk : key = k
      · rw [hk]
        exact barrier_setBarrier_self _ _ _
      · rw [barrier_setBarrier_ne _ _ _ _ hk]
        rcases finishLogged_snoc_finish c k true hfl with hold | ⟨hkey, _⟩
        · exact h hold
        · exact absurd hkey.symm hk

theorem finishMeansDone_run (key : String) (evs : List Event) (l : Leader)
    (h : l.FinishMeansDone key) : (l.run evs).FinishMeansDone key := by
  induction evs generalizing l with
  | nil => exact h
  | cons e evs ih => exact ih _ (finishMeansDone_step key l e h)

theorem finishMeansDone_init (key : String) : Leader.init.FinishMeansDone key := by
  intro hfl
  obtain ⟨c, hc⟩ := hfl
  simp [Leader.init] at hc

/-- C8, do-once exactly-once: on a leader where every key is fresh, take any
interleaving of events that holds `N ≥ 1` calls of `DoOnceStart(k)`. Exactly
one of the calls has returned "do". Until some caller's `DoOnceFinish(k)` has
succeeded, none of the calls has returned "done" and the other `N - 1` are
all parked; once it has succeeded, nobody is parked on `k` any more and each
of the other `N - 1` calls has returned "done". Every "done" returned for `k`
comes in the log after a successful `DoOnceFinish(k)` by some caller. -/
theorem do_once_exactly_once (evs : List Event) (k : String) :
    (1 ≤ startCalls k evs →
        replies k "do" (Leader.init.run evs).log = 1 ∧
        replies k "done" (Leader.init.run evs).log + parkedOn k (Leader.init.run evs).parked
          = startCalls k evs - 1) ∧
    (∀ pre post c, (Leader.init.run evs).log = pre ++ Output.reply c k "done" :: post →
        ∃ c', Output.finish c' k true ∈ pre) ∧
    ((∃ c, Output.finish c k true ∈ (Leader.init.run evs).log) →
        1 ≤ startCalls k evs ∧
        parkedOn k (Leader.init.run evs).parked = 0 ∧
        replies k "done" (Leader.init.run evs).log = startCalls k evs - 1) ∧
    ((¬ ∃ c, Output.finish c k true ∈ (Leader.init.run evs).log) →
        replies k "done" (Leader.init.run evs).log = 0 ∧
        (1 ≤ startCalls k evs →
          parkedOn k (Leader.init.run evs).parked = startCalls k evs - 1)) := by
  have h := inv_run k evs 0 Leader.init (inv_init k)
  have hfin := finishMeansDone_run k evs Leader.init (finishMeansDone_init k)
  rw [Nat.zero_add] at h
  obtain ⟨hd, h0, h1, h2⟩ := h
  refine ⟨?_, hd, ?_, ?_⟩
  · intro hn
    cases hb : (Leader.init.run evs).reg.barrier k with
    | NotStarted =>
      have := (h0 hb).1
      omega
    | InProgress =>
      obtain ⟨a1, a2, a3⟩ := h1 hb
      exact ⟨a1, by omega⟩
    | Done =>
      obtain ⟨a1, a2, a3, -⟩ := h2 hb
      exact ⟨a1, by omega⟩
  · intro hlogged
    obtain ⟨-, a2, a3, -⟩ := h2 (hfin hlogged)
    exact ⟨by omega, a3, by omega⟩
  · intro hnot
    cases hb : (Leader.init.run evs).reg.barrier k with
    | NotStarted =>
      obtain ⟨a0, -, a2, -⟩ := h0 hb
      exact ⟨a2, fun hn => by omega⟩
    | InProgress =>
      obtain ⟨-, a2, a3⟩ := h1 hb
      exact ⟨a2, fun _ => by omega⟩
    | Done => exact absurd (h2 hb).2.2.2 hnot

/-- C8 at concrete inputs: callers 1, 2 and 3 call `DoOnceStart` on
`"build-cache"`. Before anybody finishes, caller 1 has its "do" and callers 2
and 3 are parked; once caller 1 has finished, both have their "done", after
the finish, and nobody is parked. -/
theorem do_once_exactly_once_witness :
    1 ≤ startCalls "build-cache"
      [.start 1 "build-cache", .start 2 "build-cache", .start 3 "build-cache",
        .finish 1 "build-cache"] ∧
    (Leader.init.run
      [.start 1 "build-cache", .start 2 "build-cache", .start 3 "build-cache",
        .finish 1 "build-cache"]).log
      = [.reply 1 "build-cache" "do", .finish 1 "build-cache" true,
          .reply 2 "build-cache" "done", .reply 3 "build-cache" "done"] ∧
    replies "build-cache" "do" (Leader.init.run
      [.start 1 "build-cache", .start 2 "build-cache", .start 3 "build-cache",
        .finish 1 "build-cache"]).log = 1 ∧
    parkedOn "build-cache" (Leader.init.run
      [.start 1 "build-cache", .start 2 "build-cache", .start 3 "build-cache",
        .finish 1 "build-cache"]).parked = 0 ∧
    replies "build-cache" "done" (Leader.init.run
      [.start 1 "build-cache", .start 2 "build-cache", .start 3 "build-cache",
        .finish 1 "build-cache"]).log = 3 - 1 ∧
    parkedOn "build-cache" (Leader.init.run
      [.start 1 "build-cache", .start 2 "build-cache",
        .start 3 "build-cache"]).parked = 3 - 1 :=
  have after := do_once_exactly_once
    [.start 1 "build-cache", .start 2 "build-cache", .start 3 "build-cache",
      .finish 1 "build-cache"] "build-cache"
  have before := do_once_exactly_once
    [.start 1 "build-cache", .start 2 "build-cache", .start 3 "build-cache"] "build-cache"
  have unfinished : ¬ ∃ c, Output.finish c "build-cache" true ∈ (Leader.init.run
      [.start 1 "build-cache", .start 2 "build-cache", .start 3 "build-cache"]).log := by
    rintro ⟨c, hc⟩
    have hlog : (Leader.init.run
        [.start 1 "build-cache", .start 2 "build-cache", .start 3 "build-cache"]).log
        = [.reply 1 "build-cache" "do"] := by decide
    rw [hlog] at hc
    simp at hc
  ⟨by decide, by decide, (after.1 (by decide)).1,
    (after.2.2.1 ⟨1, by decide⟩).2.1, (after.2.2.1 ⟨1, by decide⟩).2.2,
    (before.2.2.2 unfinished).2 (by decide)⟩

/-! ## Job verification -/

theorem firstMismatch_of_exists (jobFields stepFields : GoMap) (fields : List String)
    (h : ∃ g ∈ fields, jobFields.get g ≠ stepFields.get g) :
    ∃ pre field post, fields = pre ++ field :: post ∧
      (∀ g ∈ pre, jobFields.get g = stepFields.get g) ∧
      jobFields.get field ≠ stepFields.get field ∧
      firstMismatch jobFields stepFields fields = some field := by
  induction fields with
  | nil => simp at h
  | cons f rest ih =>
    by_cases hf : jobFields.get f = stepFields.get f
    · have h' : ∃ g ∈ rest, jobFields.get g ≠ stepFields.get g := by
        obtain ⟨g, hg, hne⟩ := h
        rcases List.mem_cons.mp hg with rfl | hg'
        · exact absurd hf hne
        · exact ⟨g, hg', hne⟩
      obtain ⟨pre, field, post, e, hpre, hne, hfm⟩ := ih h'
      refine ⟨f :: pre, field, post, by rw [e]; rfl, ?_, hne, ?_⟩
      · intro g hg
        rcases List.mem_cons.mp hg with rfl | hg'
        · exact hf
        · exact hpre g hg'
      · simp [firstMismatch, hf, hfm]
    · exact ⟨[], f, rest, rfl, by simp, hf, by simp [firstMismatch, hf]⟩

/-- C11: for every non-matrix job step whose signature verifies, once the
values of the signed fields are read from the job and from the step, if some
field of the signature's `SignedFields` has a value on the job that differs
from its value on the step, `verifyJob` returns an `*invalidSignatureError`,
not nil, and the mismatch it reports is the first such field in
`SignedFields` order, with its two values. -/
theorem verify_job_field_mismatch (m : SigningMethods) (job : Job) (verifier : Verifier)
    (signature : Signature) (jobFields stepFields : GoMap)
    (hmatrix : job.Step.Matrix = none)
    (hsig : job.Step.Signature = some signature)
    (hverify : m.Verify signature job.Step verifier = none)
    (hjob : m.JobValuesForFields job signature.SignedFields = .ok jobFields)
    (hstep : m.StepValuesForFields job.Step signature.SignedFields = .ok stepFields)
    (hdiff : ∃ g ∈ signature.SignedFields, jobFields.get g ≠ stepFields.get g) :
    ∃ pre field post, signature.SignedFields = pre ++ field :: post ∧
      (∀ g ∈ pre, jobFields.get g = stepFields.get g) ∧
      jobFields.get field ≠ stepFields.get field ∧
      (verifyJob m job verifier).err = some (.invalidSignatureError (.errorf
        "job %q was signed with signature %q, but the value of field %q on the job (%q) does not match the value of the field on the step (%q)"
        [.str job.ID, .str signature.Value, .str field,
          .str (jobFields.get field), .str (stepFields.get field)])) ∧
      ((verifyJob m job verifier).err.map GoError.isInvalidSignature) = some true := by
  obtain ⟨pre, field, post, e, hpre, hne, hfm⟩ :=
    firstMismatch_of_exists jobFields stepFields signature.SignedFields hdiff
  refine ⟨pre, field, post, e, hpre, hne, ?_⟩
  simp [verifyJob, hmatrix, hsig, hverify, hjob, hstep, hfm, newInvalidSignatureError,
    GoError.isInvalidSignature]

/-- C11 at a concrete input: the step was signed for `make test`, the job
runs `rm -rf /`, and the error names the field `command` with both values. -/
theorem verify_job_field_mismatch_witness :
    (exampleJob "rm -rf /" "make test" none (some ⟨"sig", ["command"]⟩)).Step.Matrix = none ∧
    (verifyJob exampleSigning
        (exampleJob "rm -rf /" "make test" none (some ⟨"sig", ["command"]⟩)) ⟨"key"⟩).err
      = some (.invalidSignatureError (.errorf
        "job %q was signed with signature %q, but the value of field %q on the job (%q) does not match the value of the field on the step (%q)"
        [.str "job-1", .str "sig", .str "command", .str "rm -rf /", .str "make test"])) := by
  obtain ⟨pre, field, post, e, -, -, herr, -⟩ :=
    verify_job_field_mismatch exampleSigning
      (exampleJob "rm -rf /" "make test" none (some ⟨"sig", ["command"]⟩)) ⟨"key"⟩
      ⟨"sig", ["command"]⟩ [("command", "rm -rf /")] [("command", "make test")]
      rfl rfl rfl rfl rfl ⟨"command", by simp, by decide⟩
  refine ⟨rfl, ?_⟩
  have hf : field = "command" := by
    have hmem : field ∈ ["command"] := by
      have : field ∈ pre ++ field :: post := by simp
      rw [← e] at this
      exact this
    simpa using hmem
  subst hf
  exact herr

/-- C12: for every job whose step has no matrix and no signature, `verifyJob`
returns exactly `ErrNoSignature` and makes no call to `Signature.Verify`, so
the verifier is never consulted. -/
theorem verify_job_no_signature (m : SigningMethods) (job : Job) (verifier : Verifier)
    (hmatrix : job.Step.Matrix = none) (hsig : job.Step.Signature = none) :
    (verifyJob m job verifier).err = some ErrNoSignature ∧
    (verifyJob m job verifier).verified = [] := by
  simp [verifyJob, hmatrix, hsig]

/-- C12 at a concrete input: an unsigned step without a matrix. -/
theorem verify_job_no_signature_witness :
    (exampleJob "make test" "make test" none none).Step.Matrix = none ∧
    (exampleJob "make test" "make test" none none).Step.Signature = none ∧
    (verifyJob exampleSigning (exampleJob "make test" "make test" none none) ⟨"key"⟩).err
      = some (.new "job had no signature to verify") :=
  ⟨rfl, rfl,
    (verify_job_no_signature exampleSigning (exampleJob "make test" "make test" none none)
      ⟨"key"⟩ rfl rfl).1⟩

/-- C13: verification of matrix jobs is not supported. For every job whose
step has a non-nil `Matrix`, `verifyJob` returns nil and makes no call to
`Signature.Verify`, whatever the signature is (absent, valid or invalid) and
whatever the field values of the job are; all it does is log two warnings. -/
theorem verify_job_matrix (m : SigningMethods) (job : Job) (verifier : Verifier)
    (hmatrix : job.Step.Matrix ≠ none) :
    (verifyJob m job verifier).err = none ∧
    (verifyJob m job verifier).verified = [] ∧
    (verifyJob m job verifier).warns =
      ["Signing/Verification of matrix jobs is not currently supported",
       "Watch this space 👀"] := by
  cases hm : job.Step.Matrix with
  | none => exact absurd hm hmatrix
  | some mx => simp [verifyJob, hm]

/-- C13 at a concrete input: a matrix step whose job runs another command
than the one that was signed passes without an error. -/
theorem verify_job_matrix_witness :
    (exampleJob "rm -rf /" "make test" (some ⟨["os"]⟩)
      (some ⟨"sig", ["command"]⟩)).Step.Matrix ≠ none ∧
    (verifyJob exampleSigning (exampleJob "rm -rf /" "make test" (some ⟨["os"]⟩)
      (some ⟨"sig", ["command"]⟩)) ⟨"key"⟩).err = none :=
  ⟨by decide,
    (verify_job_matrix exampleSigning (exampleJob "rm -rf /" "make test" (some ⟨["os"]⟩)
      (some ⟨"sig", ["command"]⟩)) ⟨"key"⟩ (by decide)).1⟩

/-! ## The meta-data commands -/

theorem retry_success {α : Type} (call : Nat → Reply α) (request : APIRequest) (n : Nat) :
    ∀ (rem a : Nat) (s : Attempt α), n ≤ rem →
      (∀ i < n, (call (a + i)).err ≠ none ∧ shouldBreak (call (a + i)).resp = false) →
      (call (a + n)).err = none →
      (doWithRetry (retryCallback call request) rem a s).2 = none ∧
      (doWithRetry (retryCallback call request) rem a s).1.value = (call (a + n)).value := by
  induction n with
  | zero =>
    intro rem a s _ _ hok
    rw [Nat.add_zero] at hok
    cases rem <;> simp [doWithRetry, retryCallback, hok]
  | succ n ih =>
    intro rem a s hle hfail hok
    obtain ⟨r, rfl⟩ : ∃ r, rem = r + 1 := ⟨rem - 1, by omega⟩
    have h0 := hfail 0 (by omega)
    rw [Nat.add_zero] at h0
    obtain ⟨e, he⟩ := Option.ne_none_iff_exists'.mp h0.1
    have hrec := ih r (a + 1)
      ({ value := (call a).value, resp := (call a).resp
         world := { requests := s.world.requests ++ [request]
                    warns := s.world.warns ++ [(e, a)], out := s.world.out } })
      (by omega)
      (fun i hi => by
        have := hfail (i + 1) (by omega)
        rwa [show a + (i + 1) = a + 1 + i by omega] at this)
      (by rwa [show a + (n + 1) = a + 1 + n by omega] at hok)
    rw [show a + (n + 1) = a + 1 + n by omega]
    simpa [doWithRetry, retryCallback, he, h0.2] using hrec

theorem retry_failure {α : Type} (call : Nat → Reply α) (request : APIRequest) (n : Nat) :
    ∀ (rem a : Nat) (s : Attempt α) (err : String), n ≤ rem →
      (∀ i < n, (call (a + i)).err ≠ none ∧ shouldBreak (call (a + i)).resp = false) →
      (call (a + n)).err = some err →
      (shouldBreak (call (a + n)).resp = true ∨ n = rem) →
      (doWithRetry (retryCallback call request) rem a s).2 = some err := by
  induction n with
  | zero =>
    intro rem a s err _ _ herr hstop
    rw [Nat.add_zero] at herr hstop
    cases rem with
    | zero => simp [doWithRetry, retryCallback, herr]
    | succ r =>
      have hb : shouldBreak (call a).resp = true := by
        rcases hstop with h | h
        · exact h
        · omega
      simp [doWithRetry, retryCallback, herr, hb]
  | succ n ih =>
    intro rem a s err hle hfail herr hstop
    obtain ⟨r, rfl⟩ : ∃ r, rem = r + 1 := ⟨rem - 1, by omega⟩
    have h0 := hfail 0 (by omega)
    rw [Nat.add_zero] at h0
    obtain ⟨e, he⟩ := Option.ne_none_iff_exists'.mp h0.1
    have hrec := ih r (a + 1)
      ({ value := (call a).value, resp := (call a).resp
         world := { requests := s.world.requests ++ [request]
                    warns := s.world.warns ++ [(e, a)], out := s.world.out } })
      err (by omega)
      (fun i hi => by
        have := hfail (i + 1) (by omega)
        rwa [show a + (i + 1) = a + 1 + i by omega] at this)
      (by rwa [show a + (n + 1) = a + 1 + n by omega] at herr)
      (by
        rcases hstop with h | h
        · left; rwa [show a + (n + 1) = a + 1 + n by omega] at h
        · right; omega)
    simpa [doWithRetry, retryCallback, he, h0.2] using hrec

theorem retry_requests {α : Type} (call : Nat → Reply α) (request : APIRequest) :
    ∀ (rem a : Nat) (s : Attempt α),
      ∃ k, (doWithRetry (retryCallback call request) rem a s).1.world.requests =
        s.world.requests ++ request :: List.replicate k request := by
  intro rem
  induction rem with
  | zero =>
    intro a s
    refine ⟨0, ?_⟩
    cases he : (call a).err <;> simp [doWithRetry, retryCallback, he]
  | succ r ih =>
    intro a s
    cases he : (call a).err with
    | none => exact ⟨0, by simp [doWithRetry, retryCallback, he]⟩
    | some e =>
      by_cases hb : shouldBreak (call a).resp = true
      · exact ⟨0, by simp [doWithRetry, retryCallback, he, hb]⟩
      · obtain ⟨k, hk⟩ := ih (a + 1)
          ({ value := (call a).value, resp := (call a).resp
             world := { requests := s.world.requests ++ [request]
                        warns := s.world.warns ++ [(e, a)], out := s.world.out } })
        refine ⟨k + 1, ?_⟩
        simp only [doWithRetry, retryCallback, he, hb]
        simp only [Bool.false_eq_true, if_false]
        rw [hk]
        simp [List.replicate_succ]

theorem retry_cases {α : Type} (call : Nat → Reply α) :
    ∀ (rem a : Nat),
      (∃ n ≤ rem,
        (∀ i < n, (call (a + i)).err ≠ none ∧ shouldBreak (call (a + i)).resp = false) ∧
        (call (a + n)).err = none) ∨
      (∃ n ≤ rem, ∃ err,
        (∀ i < n, (call (a + i)).err ≠ none ∧ shouldBreak (call (a + i)).resp = false) ∧
        (call (a + n)).err = some err ∧
        (shouldBreak (call (a + n)).resp = true ∨ n = rem)) := by
  intro rem
  induction rem with
  | zero =>
    intro a
    cases he : (call a).err with
    | none => exact Or.inl ⟨0, Nat.le_refl _, by simp, by simpa using he⟩
    | some e => exact Or.inr ⟨0, Nat.le_refl _, e, by simp, by simpa using he, Or.inr rfl⟩
  | succ r ih =>
    intro a
    cases he : (call a).err with
    | none => exact Or.inl ⟨0, Nat.zero_le _, by simp, by simpa using he⟩
    | some e =>
      by_cases hb : shouldBreak (call a).resp = true
      · exact Or.inr ⟨0, Nat.zero_le _, e, by simp, by simpa using he, Or.inl (by simpa using hb)⟩
      · have hb' : shouldBreak (call a).resp = false := by simpa using hb
        have shift : ∀ n, (∀ i < n, (call (a + 1 + i)).err ≠ none ∧
            shouldBreak (call (a + 1 + i)).resp = false) →
            ∀ i < n + 1, (call (a + i)).err ≠ none ∧ shouldBreak (call (a + i)).resp = false := by
          intro n h i hi
          cases i with
          | zero => exact ⟨by simp [he], hb'⟩
          | succ j =>
            have := h j (by omega)
            rwa [show a + 1 + j = a + (j + 1) by omega] at this
        rcases ih (a + 1) with ⟨n, hn, hf, hok⟩ | ⟨n, hn, err, hf, herr, hstop⟩
        · exact Or.inl ⟨n + 1, by omega, shift n hf,
            by rwa [show a + 1 + n = a + (n + 1) by omega] at hok⟩
        · refine Or.inr ⟨n + 1, by omega, err, shift n hf,
            by rwa [show a + 1 + n = a + (n + 1) by omega] at herr, ?_⟩
          rcases hstop with h | h
          · left; rwa [show a + 1 + n = a + (n + 1) by omega] at h
          · right; omega

theorem exists_run (client : APIClient) (cfg : MetaDataExistsConfig) :
    metaDataExistsAction client cfg =
      match doWithRetry
          (retryCallback (fun i => client.ExistsMetaData i (metaDataScope cfg.Job cfg.Build).1
              (metaDataScope cfg.Job cfg.Build).2 cfg.Key)
            (.ExistsMetaData (metaDataScope cfg.Job cfg.Build).1
              (metaDataScope cfg.Job cfg.Build).2 cfg.Key))
          9 0 { value := none, resp := none, world := APIWorld.init } with
      | (s, some err) =>
        (.error (.fatal "Failed to see if meta-data exists: %s" [err]), s.world)
      | (s, none) =>
        match s.value with
        | none => (.error (.exit 2), s.world)
        | some found =>
          if !found.Exists then (.error (.exit 100), s.world) else (.ok (), s.world) := by
  unfold metaDataExistsAction
  generalize metaDataScope cfg.Job cfg.Build = p
  obtain ⟨scope, id⟩ := p
  rfl

/-- C14: after a successful lookup (an attempt among the ten returns no
error, the earlier ones having been retried), `meta-data exists` returns
normally, status 0, if the API reports that the key exists, and exits with
status 100 if it reports that the key does not exist. A failed lookup (an
error with a 401 or 404 response, or an error at the tenth attempt) ends in
`Fatal` and not with status 100. Every lookup is one or the other. -/
theorem meta_data_exists_status (client : APIClient) (cfg : MetaDataExistsConfig) (n : Nat) :
    (LookupSucceeds (fun i => client.ExistsMetaData i (metaDataScope cfg.Job cfg.Build).1
          (metaDataScope cfg.Job cfg.Build).2 cfg.Key) n →
      ((client.ExistsMetaData n (metaDataScope cfg.Job cfg.Build).1
            (metaDataScope cfg.Job cfg.Build).2 cfg.Key).value = some ⟨true⟩ →
        (metaDataExistsAction client cfg).1 = .ok () ∧
        exitStatus (metaDataExistsAction client cfg).1 = 0) ∧
      ((client.ExistsMetaData n (metaDataScope cfg.Job cfg.Build).1
            (metaDataScope cfg.Job cfg.Build).2 cfg.Key).value = some ⟨false⟩ →
        (metaDataExistsAction client cfg).1 = .error (.exit 100) ∧
        exitStatus (metaDataExistsAction client cfg).1 = 100)) ∧
    (∀ err, LookupFails (fun i => client.ExistsMetaData i (metaDataScope cfg.Job cfg.Build).1
          (metaDataScope cfg.Job cfg.Build).2 cfg.Key) n err →
      (metaDataExistsAction client cfg).1 =
        .error (.fatal "Failed to see if meta-data exists: %s" [err]) ∧
      exitStatus (metaDataExistsAction client cfg).1 ≠ 100) ∧
    ((∃ k, LookupSucceeds (fun i => client.ExistsMetaData i (metaDataScope cfg.Job cfg.Build).1
          (metaDataScope cfg.Job cfg.Build).2 cfg.Key) k) ∨
      (∃ k err, LookupFails (fun i => client.ExistsMetaData i
          (metaDataScope cfg.Job cfg.Build).1 (metaDataScope cfg.Job cfg.Build).2 cfg.Key)
          k err)) := by
  generalize hcall : (fun i => client.ExistsMetaData i (metaDataScope cfg.Job cfg.Build).1
    (metaDataScope cfg.Job cfg.Build).2 cfg.Key) = call
  have hn : client.ExistsMetaData n (metaDataScope cfg.Job cfg.Build).1
      (metaDataScope cfg.Job cfg.Build).2 cfg.Key = call n := by rw [← hcall]
  rw [hn]
  have hrun := exists_run client cfg
  rw [hcall] at hrun
  refine ⟨?_, ?_, ?_⟩
  · rintro ⟨hlt, hfail, hok⟩
    have h := retry_success call (.ExistsMetaData (metaDataScope cfg.Job cfg.Build).1
      (metaDataScope cfg.Job cfg.Build).2 cfg.Key) n 9 0
      { value := none, resp := none, world := APIWorld.init } (by omega)
      (by simpa using hfail) (by simpa using hok)
    rw [Nat.zero_add] at h
    rw [hrun]
    generalize doWithRetry _ 9 0 _ = res at h
    obtain ⟨s, e⟩ := res
    obtain ⟨h1, h2⟩ := h
    simp only at h1 h2
    subst h1
    constructor
    · intro hv
      rw [hv] at h2
      simp [h2, exitStatus]
    · intro hv
      rw [hv] at h2
      simp [h2, exitStatus]
  · rintro err ⟨hlt, hfail, herr, hstop⟩
    have h := retry_failure call (.ExistsMetaData (metaDataScope cfg.Job cfg.Build).1
      (metaDataScope cfg.Job cfg.Build).2 cfg.Key) n 9 0
      { value := none, resp := none, world := APIWorld.init } err (by omega)
      (by simpa using hfail) (by simpa using herr) (by simpa using hstop)
    rw [hrun]
    generalize doWithRetry _ 9 0 _ = res at h
    obtain ⟨s, e⟩ := res
    simp only at h
    subst h
    simp [exitStatus]
  · rcases retry_cases call 9 0 with ⟨k, hk, hf, hok⟩ | ⟨k, hk, err, hf, herr, hstop⟩
    · exact Or.inl ⟨k, by omega, by simpa using hf, by simpa using hok⟩
    · exact Or.inr ⟨k, err, by omega, by simpa using hf, by simpa using herr,
        by simpa using hstop⟩

/-- C14 at concrete inputs: the first attempt times out and the second
answers. The key `"foo"` exists and the command returns; the key `"nope"` does
not and the command exits with 100; the build `"gone"` is answered 404 and the
command dies with `Fatal`. -/
theorem meta_data_exists_status_witness :
    (metaDataExistsAction exampleAPI (exampleExistsConfig "foo" "job-1" "")).1 = .ok () ∧
    (metaDataExistsAction exampleAPI (exampleExistsConfig "nope" "job-1" "")).1
      = .error (.exit 100) ∧
    (metaDataExistsAction exampleAPI (exampleExistsConfig "foo" "job-1" "gone")).1
      = .error (.fatal "Failed to see if meta-data exists: %s" ["404 Not Found"]) := by
  have retried : ∀ key, LookupSucceeds
      (fun i => exampleAPI.ExistsMetaData i "job" "job-1" key) 1 := fun key =>
    ⟨by decide, fun i hi => by
      obtain rfl : i = 0 := by omega
      exact ⟨by simp [exampleAPI], rfl⟩, rfl⟩
  refine ⟨?_, ?_, ?_⟩
  · exact (((meta_data_exists_status exampleAPI (exampleExistsConfig "foo" "job-1" "") 1).1
      (retried "foo")).1 rfl).1
  · exact (((meta_data_exists_status exampleAPI (exampleExistsConfig "nope" "job-1" "") 1).1
      (retried "nope")).2 rfl).1
  · exact ((meta_data_exists_status exampleAPI (exampleExistsConfig "foo" "job-1" "gone") 0).2.1
      "404 Not Found" ⟨by decide, fun i hi => absurd hi (Nat.not_lt_zero i), rfl, Or.inl rfl⟩).1

theorem keys_run (client : APIClient) (cfg : MetaDataKeysConfig) :
    metaDataKeysAction client cfg =
      match doWithRetry
          (retryCallback (fun i => client.MetaDataKeys i (metaDataScope cfg.Job cfg.Build).1
              (metaDataScope cfg.Job cfg.Build).2)
            (.MetaDataKeys (metaDataScope cfg.Job cfg.Build).1
              (metaDataScope cfg.Job cfg.Build).2))
          9 0 { value := none, resp := none, world := APIWorld.init } with
      | (s, some err) => (.error (.fatal "Failed to find meta-data keys: %s" [err]), s.world)
      | (s, none) => (.ok (), printKeys (s.value.getD []) s.world) := by
  unfold metaDataKeysAction
  generalize metaDataScope cfg.Job cfg.Build = p
  obtain ⟨scope, id⟩ := p
  rfl

theorem printKeys_requests (keys : List String) (w : APIWorld) :
    (printKeys keys w).requests = w.requests := by
  induction keys generalizing w with
  | nil => rfl
  | cons k ks ih => simp only [printKeys, List.foldl_cons] at ih ⊢; rw [ih]

theorem exists_requests (client : APIClient) (cfg : MetaDataExistsConfig) :
    ∃ k, (metaDataExistsAction client cfg).2.requests =
      List.replicate (k + 1) (.ExistsMetaData (metaDataScope cfg.Job cfg.Build).1
        (metaDataScope cfg.Job cfg.Build).2 cfg.Key) := by
  obtain ⟨k, hk⟩ := retry_requests
    (fun i => client.ExistsMetaData i (metaDataScope cfg.Job cfg.Build).1
      (metaDataScope cfg.Job cfg.Build).2 cfg.Key)
    (.ExistsMetaData (metaDataScope cfg.Job cfg.Build).1
      (metaDataScope cfg.Job cfg.Build).2 cfg.Key) 9 0
    { value := none, resp := none, world := APIWorld.init }
  refine ⟨k, ?_⟩
  rw [exists_run]
  generalize doWithRetry _ 9 0 _ = res at hk
  obtain ⟨s, e⟩ := res
  simp only [APIWorld.init, List.nil_append] at hk
  cases e with
  | some err => simpa [List.replicate_succ] using hk
  | none =>
    cases hv : s.value with
    | none => simpa [List.replicate_succ, hv] using hk
    | some found => cases hf : found.Exists <;> simpa [List.replicate_succ, hv, hf] using hk

theorem keys_requests (client : APIClient) (cfg : MetaDataKeysConfig) :
    ∃ k, (metaDataKeysAction client cfg).2.requests =
      List.replicate (k + 1) (.MetaDataKeys (metaDataScope cfg.Job cfg.Build).1
        (metaDataScope cfg.Job cfg.Build).2) := by
  obtain ⟨k, hk⟩ := retry_requests
    (fun i => client.MetaDataKeys i (metaDataScope cfg.Job cfg.Build).1
      (metaDataScope cfg.Job cfg.Build).2)
    (.MetaDataKeys (metaDataScope cfg.Job cfg.Build).1
      (metaDataScope cfg.Job cfg.Build).2) 9 0
    { value := none, resp := none, world := APIWorld.init }
  refine ⟨k, ?_⟩
  rw [keys_run]
  generalize doWithRetry _ 9 0 _ = res at hk
  obtain ⟨s, e⟩ := res
  simp only [APIWorld.init, List.nil_append] at hk
  cases e with
  | some err => simpa [List.replicate_succ] using hk
  | none => simpa [List.replicate_succ, printKeys_requests] using hk

/-- C15: `--build` takes precedence over `--job` in `meta-data exists` and
`meta-data keys`. For every pair of `Job` and `Build` values the API is
queried, at least once and in every attempt, with scope "build" and id `Build`
when `Build` is non-empty, and with scope "job" and id `Job` when `Build` is
empty. -/
theorem meta_data_build_precedence (client : APIClient) (ce : MetaDataExistsConfig)
    (ck : MetaDataKeysConfig) :
    (ce.Build ≠ "" →
      (metaDataExistsAction client ce).2.requests ≠ [] ∧
      ∀ q ∈ (metaDataExistsAction client ce).2.requests,
        q = .ExistsMetaData "build" ce.Build ce.Key) ∧
    (ce.Build = "" →
      (metaDataExistsAction client ce).2.requests ≠ [] ∧
      ∀ q ∈ (metaDataExistsAction client ce).2.requests,
        q = .ExistsMetaData "job" ce.Job ce.Key) ∧
    (ck.Build ≠ "" →
      (metaDataKeysAction client ck).2.requests ≠ [] ∧
      ∀ q ∈ (metaDataKeysAction client ck).2.requests, q = .MetaDataKeys "build" ck.Build) ∧
    (ck.Build = "" →
      (metaDataKeysAction client ck).2.requests ≠ [] ∧
      ∀ q ∈ (metaDataKeysAction client ck).2.requests, q = .MetaDataKeys "job" ck.Job) := by
  obtain ⟨k, hk⟩ := exists_requests client ce
  obtain ⟨j, hj⟩ := keys_requests client ck
  rw [hk, hj]
  refine ⟨fun h => ⟨by simp [List.replicate_succ], fun q hq => ?_⟩,
    fun h => ⟨by simp [List.replicate_succ], fun q hq => ?_⟩,
    fun h => ⟨by simp [List.replicate_succ], fun q hq => ?_⟩,
    fun h => ⟨by simp [List.replicate_succ], fun q hq => ?_⟩⟩
  · rw [List.eq_of_mem_replicate hq]; simp [metaDataScope, h]
  · rw [List.eq_of_mem_replicate hq]; simp [metaDataScope, h]
  · rw [List.eq_of_mem_replicate hq]; simp [metaDataScope, h]
  · rw [List.eq_of_mem_replicate hq]; simp [metaDataScope, h]

/-- C15 at concrete inputs: with job `"job-1"` and build `"build-7"` both
requests of `meta-data exists` go to the build; `meta-data keys` without a
build asks for the job. -/
theorem meta_data_build_precedence_witness :
    "build-7" ≠ "" ∧
    (metaDataExistsAction exampleAPI (exampleExistsConfig "foo" "job-1" "build-7")).2.requests
      = [.ExistsMetaData "build" "build-7" "foo", .ExistsMetaData "build" "build-7" "foo"] ∧
    (∀ q ∈ (metaDataExistsAction exampleAPI
        (exampleExistsConfig "foo" "job-1" "build-7")).2.requests,
      q = .ExistsMetaData "build" "build-7" "foo") ∧
    (∀ q ∈ (metaDataKeysAction exampleAPI (exampleKeysConfig "job-1" "")).2.requests,
      q = .MetaDataKeys "job" "job-1") :=
  have h := meta_data_build_precedence exampleAPI (exampleExistsConfig "foo" "job-1" "build-7")
    (exampleKeysConfig "job-1" "")
  ⟨by decide, by decide, (h.1 (by decide)).2, (h.2.2.2 rfl).2⟩

/-! ## Artifact search -/

theorem lookup_not_percent (a : Artifact) (x : Char) (tail : List Char) (hx : x ≠ '%') :
    (artifactReplacer a).lookup (x :: tail) = none := by
  have h : ('%' == x) = false := by simpa using fun e => hx e.symm
  simp [Replacer.lookup, artifactReplacer, List.isPrefixOf, h]

theorem lookup_percent_end (a : Artifact) :
    (artifactReplacer a).lookup ['%'] = none := by
  simp [Replacer.lookup, artifactReplacer, List.isPrefixOf]

theorem lookup_percent (a : Artifact) (c : Char) (rest : List Char) :
    (artifactReplacer a).lookup ('%' :: c :: rest) =
      (specifierValue a c).map fun v => (['%', c], v.data) := by
  by_cases hp : c = 'p'
  · subst hp; simp [Replacer.lookup, artifactReplacer, List.isPrefixOf, specifierValue]
  by_cases hc : c = 'c'
  · subst hc
    simp [Replacer.lookup, artifactReplacer, List.isPrefixOf, specifierValue,
      Time.FormatRFC3339]
  by_cases hj : c = 'j'
  · subst hj; simp [Replacer.lookup, artifactReplacer, List.isPrefixOf, specifierValue]
  by_cases hs : c = 's'
  · subst hs
    simp [Replacer.lookup, artifactReplacer, List.isPrefixOf, specifierValue, FormatInt10]
  by_cases hS : c = 'S'
  · subst hS; simp [Replacer.lookup, artifactReplacer, List.isPrefixOf, specifierValue]
  by_cases hu : c = 'u'
  · subst hu; simp [Replacer.lookup, artifactReplacer, List.isPrefixOf, specifierValue]
  by_cases hi : c = 'i'
  · subst hi; simp [Replacer.lookup, artifactReplacer, List.isPrefixOf, specifierValue]
  have e : specifierValue a c = none := by
    unfold specifierValue
    split <;> simp_all
  rw [e]
  have n1 : ('p' == c) = false := by simpa using fun h => hp h.symm
  have n2 : ('c' == c) = false := by simpa using fun h => hc h.symm
  have n3 : ('j' == c) = false := by simpa using fun h => hj h.symm
  have n4 : ('s' == c) = false := by simpa using fun h => hs h.symm
  have n5 : ('S' == c) = false := by simpa using fun h => hS h.symm
  have n6 : ('u' == c) = false := by simpa using fun h => hu h.symm
  have n7 : ('i' == c) = false := by simpa using fun h => hi h.symm
  simp [Replacer.lookup, artifactReplacer, List.isPrefixOf, n1, n2, n3, n4, n5, n6, n7]

theorem scan_match (r : Replacer) (c : Char) (rest old new : List Char)
    (h : r.lookup (c :: rest) = some (old, new)) :
    r.scan 0 (c :: rest) = new ++ r.scan (old.length - 1) rest := by
  rw [Replacer.scan, h]

theorem scan_copy (r : Replacer) (c : Char) (rest : List Char)
    (h : r.lookup (c :: rest) = none) :
    r.scan 0 (c :: rest) = c :: r.scan 0 rest := by
  rw [Replacer.scan, h]

theorem scan_skip (r : Replacer) (c : Char) (rest : List Char) :
    r.scan 1 (c :: rest) = r.scan 0 rest := by
  rw [Replacer.scan]

theorem scan_eq_expand_aux (a : Artifact) (l : List Char) :
    (artifactReplacer a).scan 0 l = expandSpecifiers a l ∧
    ∀ x, (artifactReplacer a).scan 0 (x :: l) = expandSpecifiers a (x :: l) := by
  induction l with
  | nil =>
    refine ⟨rfl, fun x => ?_⟩
    by_cases hx : x = '%'
    · subst hx
      rw [scan_copy _ _ _ (lookup_percent_end a)]
      rfl
    · rw [scan_copy _ _ _ (lookup_not_percent a x [] hx)]
      rfl
  | cons c rest ih =>
    refine ⟨ih.2 c, fun x => ?_⟩
    by_cases hx : x = '%'
    · subst hx
      cases hv : specifierValue a c with
      | none =>
        rw [scan_copy _ _ _ (by rw [lookup_percent, hv]; rfl), ih.2 c]
        simp [expandSpecifiers, hv]
      | some v =>
        rw [scan_match _ _ _ ['%', c] v.data (by rw [lookup_percent, hv]; rfl)]
        simp only [List.length_cons, List.length_nil]
        rw [scan_skip, ih.1]
        simp [expandSpecifiers, hv]
    · rw [scan_copy _ _ _ (lookup_not_percent a x (c :: rest) hx), ih.2 c]
      simp [expandSpecifiers, hx]

theorem replace_eq_expand (a : Artifact) (format : String) :
    (artifactReplacer a).Replace format = String.mk (expandSpecifiers a format.data) := by
  simp only [Replacer.Replace, (scan_eq_expand_aux a format.data).1]

theorem printArtifacts_initial (fprint : Nat → String → Option String) (format : String)
    (artifacts : List Artifact) :
    ∀ n, ∃ rest, artifacts.map (fun a => (artifactReplacer a).Replace format) =
      (printArtifacts fprint format n artifacts).1 ++ rest := by
  induction artifacts with
  | nil => exact fun n => ⟨[], rfl⟩
  | cons a as ih =>
    intro n
    cases hf : fprint n ((artifactReplacer a).Replace format) with
    | some err =>
      exact ⟨as.map fun a => (artifactReplacer a).Replace format,
        by simp [printArtifacts, hf]⟩
    | none =>
      obtain ⟨rest, hrest⟩ := ih (n + 1)
      exact ⟨rest, by simp [printArtifacts, hf, hrest]⟩

theorem printArtifacts_all (fprint : Nat → String → Option String) (format : String)
    (artifacts : List Artifact) (hok : ∀ n text, fprint n text = none) :
    ∀ n, printArtifacts fprint format n artifacts =
      (artifacts.map (fun a => (artifactReplacer a).Replace format), none) := by
  induction artifacts with
  | nil => exact fun n => rfl
  | cons a as ih =>
    intro n
    simp [printArtifacts, hok, ih (n + 1)]

theorem printAndReturn_prints (env : SearchEnv) (cfg : ArtifactSearchConfig)
    (artifacts : List Artifact) (infos : List (String × List String)) :
    (printAndReturn env cfg artifacts infos).2.prints =
      (printArtifacts env.Fprint cfg.PrintFormat 0 artifacts).1 := by
  unfold printAndReturn
  generalize printArtifacts env.Fprint cfg.PrintFormat 0 artifacts = res
  obtain ⟨prints, e⟩ := res
  cases e <;> rfl

theorem search_prints (env : SearchEnv) (cfg : ArtifactSearchConfig)
    (artifacts : List Artifact)
    (hsearch : env.Search cfg.Build cfg.Query cfg.Step cfg.IncludeRetriedJobs true
      = .ok artifacts) :
    (artifactSearchAction env cfg).2.prints = [] ∨
    (artifactSearchAction env cfg).2.prints =
      (printArtifacts env.Fprint cfg.PrintFormat 0 artifacts).1 := by
  unfold artifactSearchAction
  rw [hsearch]
  dsimp only
  by_cases hlen : artifacts.length = 0
  · by_cases hflag : cfg.AllowEmptyResults = true
    · right
      rw [if_pos hlen, if_pos hflag]
      exact printAndReturn_prints env cfg artifacts _
    · left
      rw [if_pos hlen, if_neg hflag]
  · right
    rw [if_neg hlen]
    exact printAndReturn_prints env cfg artifacts _

/-- C16: when an artifact search succeeds with zero results, the command
without `--allow-empty-results` dies with `Fatal` (exit 1), and with
`--allow-empty-results` it prints nothing to the app writer and returns nil;
with one or more results the flag has no effect on what the command does. -/
theorem artifact_search_empty (env : SearchEnv) (cfg : ArtifactSearchConfig)
    (artifacts : List Artifact) :
    (env.Search cfg.Build cfg.Query cfg.Step cfg.IncludeRetriedJobs true = .ok [] →
      (cfg.AllowEmptyResults = false →
        (artifactSearchAction env cfg).1 = .error (.fatal "No matches found for %q" [cfg.Query]) ∧
        exitStatus (artifactSearchAction env cfg).1 = 1 ∧
        (artifactSearchAction env cfg).2.prints = []) ∧
      (cfg.AllowEmptyResults = true →
        (artifactSearchAction env cfg).1 = .ok none ∧
        (artifactSearchAction env cfg).2.prints = [])) ∧
    (artifacts ≠ [] →
      env.Search cfg.Build cfg.Query cfg.Step cfg.IncludeRetriedJobs true = .ok artifacts →
      artifactSearchAction env { cfg with AllowEmptyResults := true } =
        artifactSearchAction env { cfg with AllowEmptyResults := false }) := by
  constructor
  · intro hsearch
    constructor
    · intro hflag
      simp [artifactSearchAction, hsearch, hflag, exitStatus]
    · intro hflag
      simp [artifactSearchAction, hsearch, hflag, printAndReturn, printArtifacts]
  · intro hne hsearch
    have hlen : artifacts.length ≠ 0 := fun h => hne (List.length_eq_zero.mp h)
    simp only [artifactSearchAction, hsearch, hlen, if_false]
    rfl

/-- C16 at concrete inputs: the query `"none"` finds nothing and is fatal
without the flag and silent with it; the query `"pkg/*"` finds two artifacts
and prints the same two lines with and without the flag. -/
theorem artifact_search_empty_witness :
    (artifactSearchAction exampleSearchEnv (exampleSearchConfig "none" "%p\n" false)).1
      = .error (.fatal "No matches found for %q" ["none"]) ∧
    (artifactSearchAction exampleSearchEnv (exampleSearchConfig "none" "%p\n" true)).1
      = .ok none ∧
    (artifactSearchAction exampleSearchEnv (exampleSearchConfig "none" "%p\n" true)).2.prints
      = [] ∧
    artifactSearchAction exampleSearchEnv (exampleSearchConfig "pkg/*" "%p\n" true) =
      artifactSearchAction exampleSearchEnv (exampleSearchConfig "pkg/*" "%p\n" false) :=
  have empty (flag : Bool) := (artifact_search_empty exampleSearchEnv
    (exampleSearchConfig "none" "%p\n" flag) []).1 rfl
  ⟨((empty false).1 rfl).1, ((empty true).2 rfl).1, ((empty true).2 rfl).2,
    (artifact_search_empty exampleSearchEnv (exampleSearchConfig "pkg/*" "%p\n" true)
      [exampleArtifact "a1" "pkg/a.tar.gz", exampleArtifact "a2" "pkg/%p.tar.gz"]).2
      (by simp) rfl⟩

/-- C17: for every format string and every list of found artifacts, artifact
search prints, for each artifact in result order, the format string with every
specifier replaced in a single left-to-right pass (`%i` by the artifact ID,
`%p` by its path, `%c` by its creation time in RFC 3339, `%j` by the uploading
job's ID, `%s` by its file size in decimal, `%S` by its SHA1 checksum and `%u`
by its URL), all other text copied unchanged and inserted text not expanded.
What it prints is always an initial part of that list, and the whole list when
no print fails. -/
theorem artifact_search_format (env : SearchEnv) (cfg : ArtifactSearchConfig)
    (artifacts : List Artifact)
    (hsearch : env.Search cfg.Build cfg.Query cfg.Step cfg.IncludeRetriedJobs true
      = .ok artifacts) :
    (∃ rest, artifacts.map (fun a => String.mk (expandSpecifiers a cfg.PrintFormat.data)) =
      (artifactSearchAction env cfg).2.prints ++ rest) ∧
    ((∀ n text, env.Fprint n text = none) →
      (artifactSearchAction env cfg).2.prints =
        artifacts.map fun a => String.mk (expandSpecifiers a cfg.PrintFormat.data)) ∧
    (∀ a, (artifactReplacer a).Replace cfg.PrintFormat =
      String.mk (expandSpecifiers a cfg.PrintFormat.data)) := by
  have hmap : (artifacts.map fun a => String.mk (expandSpecifiers a cfg.PrintFormat.data)) =
      artifacts.map fun a => (artifactReplacer a).Replace cfg.PrintFormat := by
    apply List.map_congr_left
    intro a _
    exact (replace_eq_expand a cfg.PrintFormat).symm
  rw [hmap]
  refine ⟨?_, ?_, fun a => replace_eq_expand a cfg.PrintFormat⟩
  · rcases search_prints env cfg artifacts hsearch with h | h
    · rw [h]; exact ⟨_, rfl⟩
    · rw [h]; exact printArtifacts_initial env.Fprint cfg.PrintFormat artifacts 0
  · intro hok
    rcases search_prints env cfg artifacts hsearch with h | h
    · rw [h]
      unfold artifactSearchAction at h
      rw [hsearch] at h
      dsimp only at h
      by_cases hlen : artifacts.length = 0
      · rw [List.length_eq_zero.mp hlen]
        rfl
      · rw [if_neg hlen, printAndReturn_prints,
          printArtifacts_all env.Fprint cfg.PrintFormat artifacts hok 0] at h
        exact h.symm
    · rw [h, printArtifacts_all env.Fprint cfg.PrintFormat artifacts hok 0]

/-- C17 at a concrete input: with the format `%%p %s %x` and a path that
itself holds `%p`, the lone `%` and the unknown `%x` are copied, `%p` and `%s`
are replaced, and the `%p` inside the inserted path is left alone. -/
theorem artifact_search_format_witness :
    exampleSearchEnv.Search "build-7" "pkg/*" "" false true
      = .ok [exampleArtifact "a1" "pkg/a.tar.gz", exampleArtifact "a2" "pkg/%p.tar.gz"] ∧
    (artifactSearchAction exampleSearchEnv
        (exampleSearchConfig "pkg/*" "%%p %s %x\n" false)).2.prints
      = ["%pkg/a.tar.gz 1024 %x\n", "%pkg/%p.tar.gz 1024 %x\n"] := by
  have h := (artifact_search_format exampleSearchEnv
    (exampleSearchConfig "pkg/*" "%%p %s %x\n" false)
    [exampleArtifact "a1" "pkg/a.tar.gz", exampleArtifact "a2" "pkg/%p.tar.gz"] rfl).2.1
    (fun _ _ => rfl)
  refine ⟨rfl, ?_⟩
  rw [h]
  decide

/-! ## Reading the job environment -/

theorem envFilterLoop_lookup (envMap : GoMap) (args : List String) :
    ∀ (em : GoMap) (notFound : Bool) (warns : List String),
      (∀ k v, em.lookup k = some v → envMap.lookup k = some v) →
      ∀ k v, (envFilterLoop envMap args (em, notFound, warns)).1.lookup k = some v ↔
        (em.lookup k = some v ∨ (k ∈ args ∧ envMap.lookup k = some v)) := by
  induction args with
  | nil =>
    intro em notFound warns _ k v
    simp [envFilterLoop]
  | cons arg rest ih =>
    intro em notFound warns hsub k v
    cases ha : envMap.lookup arg with
    | none =>
      simp only [envFilterLoop, ha]
      rw [ih em true (warns ++ [arg]) hsub k v]
      constructor
      · rintro (h | ⟨hk, hv⟩)
        · exact Or.inl h
        · exact Or.inr ⟨List.mem_cons_of_mem _ hk, hv⟩
      · rintro (h | ⟨hk, hv⟩)
        · exact Or.inl h
        · rcases List.mem_cons.mp hk with rfl | hk'
          · rw [ha] at hv; cases hv
          · exact Or.inr ⟨hk', hv⟩
    | some x =>
      simp only [envFilterLoop, ha]
      have hsub' : ∀ k v, (upsert arg x em).lookup k = some v → envMap.lookup k = some v := by
        intro k' v' h
        by_cases hk : k' = arg
        · subst hk
          rw [lookup_upsert_self] at h
          rw [ha, ← h]
        · rw [lookup_upsert_ne _ _ _ _ hk] at h
          exact hsub k' v' h
      rw [ih (upsert arg x em) notFound warns hsub' k v]
      by_cases hk : k = arg
      · subst hk
        rw [lookup_upsert_self]
        constructor
        · rintro (h | ⟨_, hv⟩)
          · exact Or.inr ⟨List.mem_cons_self _ _, by rw [ha, h]⟩
          · exact Or.inr ⟨List.mem_cons_self _ _, hv⟩
        · rintro (h | ⟨_, hv⟩)
          · have := hsub k v h
            rw [ha] at this
            exact Or.inl this
          · rw [ha] at hv
            exact Or.inl hv
      · rw [lookup_upsert_ne _ _ _ _ hk]
        constructor
        · rintro (h | ⟨hk', hv⟩)
          · exact Or.inl h
          · exact Or.inr ⟨List.mem_cons_of_mem _ hk', hv⟩
        · rintro (h | ⟨hk', hv⟩)
          · exact Or.inl h
          · rcases List.mem_cons.mp hk' with rfl | hk''
            · exact absurd rfl hk
            · exact Or.inr ⟨hk'', hv⟩

theorem envFilterLoop_notFound (envMap : GoMap) (args : List String) :
    ∀ (em : GoMap) (notFound : Bool) (warns : List String),
      (envFilterLoop envMap args (em, notFound, warns)).2.1 = true ↔
        (notFound = true ∨ ∃ a ∈ args, envMap.lookup a = none) := by
  induction args with
  | nil =>
    intro em notFound warns
    simp [envFilterLoop]
  | cons arg rest ih =>
    intro em notFound warns
    cases ha : envMap.lookup arg with
    | none =>
      simp only [envFilterLoop, ha]
      rw [ih em true (warns ++ [arg])]
      constructor
      · intro _
        exact Or.inr ⟨arg, List.mem_cons_self _ _, ha⟩
      · intro _
        exact Or.inl rfl
    | some x =>
      simp only [envFilterLoop, ha]
      rw [ih (upsert arg x em) notFound warns]
      constructor
      · rintro (h | ⟨a, hmem, hnone⟩)
        · exact Or.inl h
        · exact Or.inr ⟨a, List.mem_cons_of_mem _ hmem, hnone⟩
      · rintro (h | ⟨a, hmem, hnone⟩)
        · exact Or.inl h
        · rcases List.mem_cons.mp hmem with rfl | hmem'
          · rw [ha] at hnone; cases hnone
          · exact Or.inr ⟨a, hmem', hnone⟩

theorem envGet_run (api : JobAPI) (cfg : EnvGetConfig) (args : List String)
    (client : JobClient) (envMap : GoMap)
    (hclient : api.NewDefaultClient Context.Background = .ok client)
    (henv : client.EnvGet Context.Background = .ok envMap)
    (hargs : args ≠ []) :
    envGetAction api cfg args =
      match envPrint api cfg.Format args.length (filteredEnv envMap args)
          { out := "", warns := (envFilterLoop envMap args ([], false, [])).2.2,
            errors := [] } with
      | .error halt =>
        (.error halt, { out := "", warns := (envFilterLoop envMap args ([], false, [])).2.2,
                        errors := [] })
      | .ok w' =>
        if (envFilterLoop envMap args ([], false, [])).2.1 then (.error (.exit 1), w')
        else (.ok (), w') := by
  have hlen : args.length > 0 := List.length_pos.mpr hargs
  simp only [envGetAction, hclient, henv, hlen, if_true, filteredEnv]

/-- C18, as amended: for every job environment map and every non-empty list
of variable names given to `env get`, the map handed to the printer contains
exactly the pairs `(a, env[a])` for the names `a` that are set in the
environment. With the format plain, json or json-pretty that map is what is
printed: the one value (plain, one name), lines of `KEY=value` (plain, several
names) or JSON; with any other format an error is logged and nothing is
printed; and a JSON encoder that fails ends the command in `Fatal` with
nothing printed. Unless the JSON encoder fails, the command exits with status
1 if and only if at least one requested name is not set, after the printing,
and returns nil otherwise. -/
theorem env_get_filtered (api : JobAPI) (cfg : EnvGetConfig) (args : List String)
    (client : JobClient) (envMap : GoMap)
    (hclient : api.NewDefaultClient Context.Background = .ok client)
    (henv : client.EnvGet Context.Background = .ok envMap)
    (hargs : args ≠ []) :
    (∀ k v, (filteredEnv envMap args).lookup k = some v ↔
      (k ∈ args ∧ envMap.lookup k = some v)) ∧
    (cfg.Format = "plain" → args.length = 1 →
      (envGetAction api cfg args).2.out =
        printLines ((filteredEnv envMap args).map fun p => p.2) "") ∧
    (cfg.Format = "plain" → args.length ≠ 1 →
      (envGetAction api cfg args).2.out =
        printLines (api.ToSlice (filteredEnv envMap args)) "") ∧
    (cfg.Format = "json" ∨ cfg.Format = "json-pretty" →
      ∀ text, api.Encode (cfg.Format == "json-pretty") (filteredEnv envMap args) = .ok text →
        (envGetAction api cfg args).2.out = text) ∧
    ((cfg.Format = "json" ∨ cfg.Format = "json-pretty" →
        ∀ err, api.Encode (cfg.Format == "json-pretty") (filteredEnv envMap args)
          ≠ .error err) →
      ((envGetAction api cfg args).1 = .error (.exit 1) ↔
        ∃ a ∈ args, envMap.lookup a = none) ∧
      ((envGetAction api cfg args).1 = .ok () ↔ ∀ a ∈ args, envMap.lookup a ≠ none) ∧
      (exitStatus (envGetAction api cfg args).1 = 1 ↔
        ∃ a ∈ args, envMap.lookup a = none)) ∧
    (cfg.Format ≠ "plain" → cfg.Format ≠ "json" → cfg.Format ≠ "json-pretty" →
      (envGetAction api cfg args).2.out = "" ∧
      (envGetAction api cfg args).2.errors = [("Invalid output format %q\n", [cfg.Format])]) ∧
    (cfg.Format = "json" ∨ cfg.Format = "json-pretty" →
      ∀ err, api.Encode (cfg.Format == "json-pretty") (filteredEnv envMap args) = .error err →
        (envGetAction api cfg args).1 = .error (.fatal "Error marshalling JSON: %v\n" [err]) ∧
        (envGetAction api cfg args).2.out = "") := by
  have hrun := envGet_run api cfg args client envMap hclient henv hargs
  have hnf := envFilterLoop_notFound envMap args [] false []
  simp only [Bool.false_eq_true, false_or] at hnf
  refine ⟨?_, ?_, ?_, ?_, ?_, ?_, ?_⟩
  · intro k v
    have h := envFilterLoop_lookup envMap args [] false [] (by simp) k v
    simpa [filteredEnv] using h
  · intro hf hone
    rw [hrun]
    simp only [envPrint, hf, hone, if_true]
    split <;> rfl
  · intro hf hmany
    rw [hrun]
    simp only [envPrint, hf, hmany, if_true, if_false]
    split <;> rfl
  · intro hf text htext
    have hnp : cfg.Format ≠ "plain" := by
      rcases hf with h | h <;> rw [h] <;> decide
    rw [hrun]
    simp only [envPrint, hnp, hf, if_true, if_false, htext]
    split <;> simp
  · intro hjson
    have hall : (¬ ∃ a ∈ args, envMap.lookup a = none) ↔ ∀ a ∈ args, envMap.lookup a ≠ none := by
      simp
    rw [← hall, ← hnf, hrun]
    by_cases hp : cfg.Format = "plain"
    · by_cases hone : args.length = 1
      · simp only [envPrint, hp, hone, if_true]
        cases (envFilterLoop envMap args ([], false, [])).2.1 <;> simp [exitStatus]
      · simp only [envPrint, hp, hone, if_true, if_false]
        cases (envFilterLoop envMap args ([], false, [])).2.1 <;> simp [exitStatus]
    · by_cases hj : cfg.Format = "json" ∨ cfg.Format = "json-pretty"
      · cases he : api.Encode (cfg.Format == "json-pretty") (filteredEnv envMap args) with
        | error err => exact absurd he (hjson hj err)
        | ok text =>
          simp only [envPrint, hp, hj, if_true, if_false, he]
          cases (envFilterLoop envMap args ([], false, [])).2.1 <;> simp [exitStatus]
      · simp only [envPrint, hp, hj, if_false]
        cases (envFilterLoop envMap args ([], false, [])).2.1 <;> simp [exitStatus]
  · intro hp hj hjp
    have hnj : ¬ (cfg.Format = "json" ∨ cfg.Format = "json-pretty") := by
      rintro (h | h)
      · exact hj h
      · exact hjp h
    rw [hrun]
    simp only [envPrint, hp, hnj, if_false]
    cases (envFilterLoop envMap args ([], false, [])).2.1 <;> simp
  · intro hf err herr
    have hnp : cfg.Format ≠ "plain" := by
      rcases hf with h | h <;> rw [h] <;> decide
    rw [hrun]
    simp only [envPrint, hnp, hf, if_true, if_false, herr]
    exact ⟨trivial, trivial⟩

/-- C18 as first stated fails at two concrete inputs. With the format `xml`,
`LLAMA` set and `GUANACO` not set, the command exits with status 1 and has
printed nothing, although `LLAMA` is set. With the format `json`, every
requested name set and an encoder that fails, the command ends with status 1,
so that status does not tell that a requested name is missing. -/
theorem env_get_unconditional_refuted :
    (exampleJobEnv.lookup "LLAMA" = some "Kuzco" ∧
      (envGetAction exampleJobAPI (exampleEnvGetConfig "xml") ["LLAMA", "GUANACO"]).1
        = .error (.exit 1) ∧
      (envGetAction exampleJobAPI (exampleEnvGetConfig "xml") ["LLAMA", "GUANACO"]).2.out
        = "") ∧
    ((∀ a ∈ ["LLAMA"], exampleJobEnv.lookup a ≠ none) ∧
      (envGetAction exampleFailingEncoderAPI (exampleEnvGetConfig "json") ["LLAMA"]).1
        = .error (.fatal "Error marshalling JSON: %v\n" ["write /dev/stdout: broken pipe"]) ∧
      ¬ (exitStatus
          (envGetAction exampleFailingEncoderAPI (exampleEnvGetConfig "json") ["LLAMA"]).1 = 1
        ↔ ∃ a ∈ ["LLAMA"], exampleJobEnv.lookup a = none)) := by
  refine ⟨⟨by decide, rfl, by decide⟩, by decide, rfl, ?_⟩
  intro h
  obtain ⟨a, ha, hnone⟩ := h.mp rfl
  rw [List.mem_singleton.mp ha] at hnone
  exact absurd hnone (by decide)

/-- C18 at a concrete input: `LLAMA` is set and `GUANACO` is not, so `env get
LLAMA GUANACO` prints the line of `LLAMA` and then exits with status 1. -/
theorem env_get_filtered_witness :
    exampleJobAPI.NewDefaultClient Context.Background = .ok exampleJobClient ∧
    exampleJobClient.EnvGet Context.Background = .ok exampleJobEnv ∧
    ["LLAMA", "GUANACO"] ≠ [] ∧
    (envGetAction exampleJobAPI (exampleEnvGetConfig "plain") ["LLAMA", "GUANACO"]).2.out
      = "LLAMA=Kuzco\n" ∧
    (envGetAction exampleJobAPI (exampleEnvGetConfig "plain") ["LLAMA", "GUANACO"]).1
      = .error (.exit 1) := by
  have h := env_get_filtered exampleJobAPI (exampleEnvGetConfig "plain") ["LLAMA", "GUANACO"]
    exampleJobClient exampleJobEnv rfl rfl (by simp)
  refine ⟨rfl, rfl, by simp, ?_, ?_⟩
  · rw [h.2.2.1 rfl (by decide)]
    decide
  · exact (h.2.2.2.2.1 (fun hj => by
      rcases hj with hj | hj <;> exact absurd hj (by decide))).1.mpr
      ⟨"GUANACO", by simp, by decide⟩

/-! ## Directory names -/

theorem safeDirChar_charset (c : Char) :
    (safeDirChar c).isAlphanum = true ∨ safeDirChar c = '-' := by
  unfold safeDirChar
  by_cases h : c.isAlphanum = true
  · left; simp [h]
  · right; simp [h]

/-- C19: for every agent name and every repository URL, `dirForAgentName` and
`dirForRepository` return the input with each character that is not an ASCII
letter or digit replaced by a single "-" and every letter and digit left
unchanged in place, so that the result has the same number of characters and
contains only letters, digits and "-"; the tables of `TestDirForAgentName` and
`TestDirForRepository` hold, among them ":docker: My Agent" giving
"-docker--My-Agent" and "git@github.com:acme-inc/my-project.git" giving
"git-github-com-acme-inc-my-project-git". -/
theorem dir_names_sanitised (s : String) :
    ((dirForAgentName s).length = s.length ∧
      (∀ (i : Nat) (c : Char), s.data[i]? = some c →
        (dirForAgentName s).data[i]? = some (if c.isAlphanum then c else '-')) ∧
      (∀ c ∈ (dirForAgentName s).data, c.isAlphanum = true ∨ c = '-')) ∧
    ((dirForRepository s).length = s.length ∧
      (∀ (i : Nat) (c : Char), s.data[i]? = some c →
        (dirForRepository s).data[i]? = some (if c.isAlphanum then c else '-')) ∧
      (∀ c ∈ (dirForRepository s).data, c.isAlphanum = true ∨ c = '-')) ∧
    (∀ t ∈ agentNameTests, dirForAgentName t.1 = t.2) ∧
    (∀ t ∈ repositoryNameTests, dirForRepository t.1 = t.2) := by
  have core : ∀ s : String,
      (String.mk (s.data.map safeDirChar)).length = s.length ∧
      (∀ (i : Nat) (c : Char), s.data[i]? = some c →
        (String.mk (s.data.map safeDirChar)).data[i]? =
          some (if c.isAlphanum then c else '-')) ∧
      (∀ c ∈ (String.mk (s.data.map safeDirChar)).data, c.isAlphanum = true ∨ c = '-') := by
    intro s
    refine ⟨?_, ?_, ?_⟩
    · show (s.data.map safeDirChar).length = s.data.length
      exact List.length_map _ _
    · intro i c hc
      simp [List.getElem?_map, hc, safeDirChar]
    · intro c hc
      obtain ⟨d, -, rfl⟩ := List.mem_map.mp hc
      exact safeDirChar_charset d
  refine ⟨core s, core s, ?_, ?_⟩
  · decide
  · decide

/-- C19 at concrete inputs: the agent name ":docker: My Agent" keeps its 17
characters and becomes "-docker--My-Agent", and the repository
"git@github.com:acme-inc/my-project.git" becomes
"git-github-com-acme-inc-my-project-git". -/
theorem dir_names_sanitised_witness :
    (dirForAgentName ":docker: My Agent").length = 17 ∧
    dirForAgentName ":docker: My Agent" = "-docker--My-Agent" ∧
    dirForRepository "git@github.com:acme-inc/my-project.git"
      = "git-github-com-acme-inc-my-project-git" :=
  have h := dir_names_sanitised ":docker: My Agent"
  ⟨h.1.1, h.2.2.1 (":docker: My Agent", "-docker--My-Agent") (by decide),
    h.2.2.2 ("git@github.com:acme-inc/my-project.git",
      "git-github-com-acme-inc-my-project-git") (by decide)⟩

end Agent
